import Mathlib

/-!
# Verification of the orisa world-state engine

Shallow embedding of the `server/src` sources of the orisa virtual-world
server (world state, object graph, timers, live packages, the scripting
API layer and the filesystem package loader), together with proofs of the
specified properties.

Rust `HashMap`s are modelled as association lists with insert-replaces
semantics; `Vec` as `List`; fallible operations return `Except`.
-/

namespace Orisa

/-- `Id` from `object/types.rs`: a dense index into `State.objects`. -/
structure Id where
  idx : Nat
deriving DecidableEq, Repr

/-- `GameTime` (u64 in the source): in-world seconds.  Only comparisons and
addition are applied to it, so `Nat` is a faithful model. -/
abbrev GameTime := Nat

/-- `SerializableValue` from `lua.rs`. -/
inductive SerializableValue where
  | nil
  | boolean (b : Bool)
  | integer (i : Int)
  | number (x : Float)
  | string (s : String)
  | table (pairs : List (SerializableValue × SerializableValue))
  | dict (entries : List (String × SerializableValue))

/-- `Timer` (fields as used by `world/state.rs` and `object/api.rs`;
the struct itself lives in a file absent from this snapshot). -/
structure Timer where
  target_time : GameTime
  original_user : Option Id
  message_name : String
  payload : SerializableValue

/-- `ObjectKind` from `object/types.rs`: `user[/repo].package`. -/
structure ObjectKind where
  user : String
  repo : Option String
  package : String
deriving DecidableEq, Repr

/-- `ObjectKind::for_room()`: `system.room`. -/
def ObjectKind.for_room : ObjectKind :=
  { user := "system", repo := none, package := "room" }

/-- Modelled from the spec: `state.rs` calls a two-argument
`ObjectKind::for_user(username, user_type)` whose definition is absent from
this snapshot (`types.rs` carries an older one-argument version); every
claim treats the resulting kind opaquely. -/
def ObjectKind.for_user (username user_type : String) : ObjectKind :=
  { user := username, repo := none, package := user_type }

/-- `PackageReference` from `lua.rs`. -/
structure PackageReference where
  user : String
  repo : Option String
  package : String
deriving DecidableEq, Repr

/-- ASCII word character, the `[[:word:]]` class of the parsing regex. -/
def isWordChar (c : Char) : Bool :=
  c.isAlphanum || c = '_'

/-- Split a character list at every occurrence of `c`; the pieces contain
no `c`, and `k` separators yield `k + 1` pieces. -/
def splitOnChar (c : Char) : List Char → List (List Char)
  | [] => [[]]
  | x :: xs =>
    if x = c then [] :: splitOnChar c xs
    else
      match splitOnChar c xs with
      | [] => [[x]]
      | y :: ys => (x :: y) :: ys

/-- Non-empty run of word characters (one `[[:word:]]+` group). -/
def isWord (cs : List Char) : Bool :=
  !cs.isEmpty && cs.all isWordChar

/-- `PackageReference::new`: parse `user[/repo].package` (regex
`^(?P<user>[[:word:]]+)(/(?P<repo>[[:word:]]+))?\.(?P<package>[[:word:]]+)$`).
Word characters exclude `.` and `/`, so the regex matches exactly when the
string has one dot, the part after it is a word, and the part before it is
`user` or `user/repo` with both words. -/
def PackageReference.new (name : String) : Option PackageReference :=
  match splitOnChar '.' name.data with
  | [root, pkg] =>
    if isWord pkg then
      match splitOnChar '/' root with
      | [u] =>
        if isWord u then some { user := String.mk u, repo := none, package := String.mk pkg }
        else none
      | [u, r] =>
        if isWord u && isWord r then
          some { user := String.mk u, repo := some (String.mk r), package := String.mk pkg }
        else none
      | _ => none
    else none
  | _ => none

/-- `PackageReference::package_root()`: `user[/repo]`. -/
def PackageReference.package_root (p : PackageReference) : String :=
  match p.repo with
  | none => p.user
  | some r => p.user ++ "/" ++ r

/-- `PackageReference::system_package_root()`. -/
def PackageReference.system_package_root : String := "system"

/-- `PackageReference::is_live_package()`: `repo == Some("live")`. -/
def PackageReference.is_live_package (p : PackageReference) : Bool :=
  p.repo = some "live"

/-- Association-list lookup, modelling `HashMap::get`. -/
def lookupKV {κ α : Type} [DecidableEq κ] (m : List (κ × α)) (k : κ) : Option α :=
  match m with
  | [] => none
  | (k', v) :: rest => if k' = k then some v else lookupKV rest k

/-- Association-list insert-or-replace, modelling `HashMap::insert`. -/
def insertKV {κ α : Type} [DecidableEq κ] (m : List (κ × α)) (k : κ) (v : α) :
    List (κ × α) :=
  match m with
  | [] => [(k, v)]
  | (k', v') :: rest => if k' = k then (k, v) :: rest else (k', v') :: insertKV rest k v

/-- Association-list removal, modelling `HashMap::remove`. -/
def removeKV {κ α : Type} [DecidableEq κ] (m : List (κ × α)) (k : κ) :
    List (κ × α) :=
  match m with
  | [] => []
  | (k', v') :: rest => if k' = k then rest else (k', v') :: removeKV rest k

/-- In-place update of the element at an index, modelling `Vec::get_mut`
followed by a field assignment. -/
def listModify {α : Type} (f : α → α) : Nat → List α → List α
  | _, [] => []
  | 0, a :: l => f a :: l
  | n + 1, a :: l => a :: listModify f n l

/-- `Object` from `world/state.rs`. -/
structure Object where
  parent : Option Id
  kind : ObjectKind
  attrs : List (String × SerializableValue)
  state : List (String × SerializableValue)
  timers : List (String × Timer)

/-- `Object::new`. -/
def Object.new (kind : ObjectKind) : Object :=
  { parent := none, kind := kind, attrs := [], state := [], timers := [] }

/-- `world::state::Error`. -/
inductive Error where
  | InvalidObjectId (id : Id)
  | CyclicHierarchy (child : Id) (parent : Id)
deriving DecidableEq, Repr

/-- `State` from `world/state.rs`. -/
structure State where
  objects : List Object
  entrance : Id
  users : List (String × Id)
  live_packages : List (PackageReference × String)
  current_time : GameTime

/-- `State::new`: one entrance room object, id #0. -/
def State.new : State :=
  { objects := [Object.new ObjectKind.for_room]
    entrance := ⟨0⟩
    users := []
    live_packages := []
    current_time := 0 }

/-- `State::create_object`: appends a fresh object, returns its id. -/
def State.create_object (s : State) (kind : ObjectKind) : State × Id :=
  ({ s with objects := s.objects ++ [Object.new kind] }, ⟨s.objects.length⟩)

/-- `State::object`: checked immutable lookup. -/
def State.object (s : State) (id : Id) : Except Error Object :=
  match s.objects.get? id.idx with
  | some o => .ok o
  | none => .error (.InvalidObjectId id)

/-- `State::object_mut` followed by a mutation: checked in-place update. -/
def State.modifyObject (s : State) (id : Id) (f : Object → Object) :
    Except Error State :=
  match s.objects.get? id.idx with
  | some _ => .ok { s with objects := listModify f id.idx s.objects }
  | none => .error (.InvalidObjectId id)

/-- `State::entrance`. -/
def State.getEntrance (s : State) : Id := s.entrance

/-- `State::get_or_create_user`. -/
def State.get_or_create_user (s : State) (username user_type : String) :
    State × Id :=
  match lookupKV s.users username with
  | some id => (s, id)
  | none =>
    let c := s.create_object (ObjectKind.for_user username user_type)
    let s1 := c.1
    let id := c.2
    let s2 := { s1 with
      objects := listModify (fun o => { o with parent := some s1.entrance }) id.idx s1.objects }
    ({ s2 with users := insertKV s2.users username id }, id)

/-- `State::username`: reverse lookup in the users map. -/
def State.username (s : State) (id : Id) : Option String :=
  match s.users.find? (fun kv => kv.2 = id) with
  | some kv => some kv.1
  | none => none

/-- `State::parent`. -/
def State.parent (s : State) (of : Id) : Except Error (Option Id) :=
  (s.object of).map (fun o => o.parent)

/-- `State::kind`. -/
def State.kind (s : State) (id : Id) : Except Error ObjectKind :=
  (s.object id).map (fun o => o.kind)

/-- `State::get_live_package_content`: `None` for non-live packages (the
source logs a warning and returns `None`). -/
def State.get_live_package_content (s : State) (package : PackageReference) :
    Option String :=
  if !package.is_live_package then none
  else lookupKV s.live_packages package

/-- `State::set_live_package_content`: a logged no-op for non-live
packages, insert-or-replace otherwise. -/
def State.set_live_package_content (s : State) (package : PackageReference)
    (content : String) : State :=
  if !package.is_live_package then s
  else { s with live_packages := insertKV s.live_packages package content }

/-- `State::set_attr`: returns the previous binding like `HashMap::insert`. -/
def State.set_attr (s : State) (id : Id) (key : String)
    (value : SerializableValue) : Except Error (State × Option SerializableValue) :=
  match s.objects.get? id.idx with
  | none => .error (.InvalidObjectId id)
  | some o =>
    let objs := listModify (fun o => { o with attrs := insertKV o.attrs key value }) id.idx s.objects
    .ok ({ s with objects := objs }, lookupKV o.attrs key)

/-- `State::get_attr`. -/
def State.get_attr (s : State) (id : Id) (name : String) :
    Except Error (Option SerializableValue) :=
  (s.object id).map (fun o => lookupKV o.attrs name)

/-- `State::set_state`. -/
def State.set_state (s : State) (id : Id) (key : String)
    (value : SerializableValue) : Except Error (State × Option SerializableValue) :=
  match s.objects.get? id.idx with
  | none => .error (.InvalidObjectId id)
  | some o =>
    let objs := listModify (fun o => { o with state := insertKV o.state key value }) id.idx s.objects
    .ok ({ s with objects := objs }, lookupKV o.state key)

/-- `State::get_state`. -/
def State.get_state (s : State) (id : Id) (name : String) :
    Except Error (Option SerializableValue) :=
  (s.object id).map (fun o => lookupKV o.state name)

/-- `State::causes_cycle`, a recursive walk up the ancestor chain of
`new_parent`.  The Rust recursion has no structural decrease; `fuel` makes
it total.  `State::move_object` supplies fuel `objects.length + 1`, which
the termination lemmas below show is never exhausted on well-formed
states (ancestor chains there die within `objects.length` steps). -/
def State.causes_cycle (s : State) (child : Id) : Id → Nat → Except Error Bool
  | _, 0 => .error (.InvalidObjectId child)
  | new_parent, fuel + 1 =>
    if child = new_parent then .ok true
    else
      match s.object new_parent with
      | .error e => .error e
      | .ok o =>
        match o.parent with
        | none => .ok false
        | some grandparent => s.causes_cycle child grandparent fuel

/-- `State::move_object`. -/
def State.move_object (s : State) (child : Id) (new_parent : Option Id) :
    Except Error State :=
  match new_parent with
  | some p =>
    match s.causes_cycle child p (s.objects.length + 1) with
    | .error e => .error e
    | .ok true => .error (.CyclicHierarchy child p)
    | .ok false => s.modifyObject child (fun o => { o with parent := new_parent })
  | none => s.modifyObject child (fun o => { o with parent := none })

/-- `State::get_current_time`. -/
def State.get_current_time (s : State) : GameTime := s.current_time

/-- `State::set_current_time`. -/
def State.set_current_time (s : State) (time : GameTime) : State :=
  { s with current_time := time }

/-- `State::set_timer`. -/
def State.set_timer (s : State) (id : Id) (name : String) (timer : Timer) :
    Except Error State :=
  s.modifyObject id (fun o => { o with timers := insertKV o.timers name timer })

/-- `State::clear_timer`. -/
def State.clear_timer (s : State) (id : Id) (name : String) :
    Except Error State :=
  s.modifyObject id (fun o => { o with timers := removeKV o.timers name })

/-- The partition predicate of `State::extract_ready_timers`:
`t.target_time <= new_time && t.target_time > current_time`. -/
def readyPred (current_time new_time : GameTime) (kt : String × Timer) : Bool :=
  decide (kt.2.target_time ≤ new_time) && decide (current_time < kt.2.target_time)

/-- The `enumerate().flat_map(...)` pass of `State::extract_ready_timers`:
ready timers of each object, paired with their owner id. -/
def extractFrom (current_time new_time : GameTime) :
    Nat → List Object → List (Id × Timer)
  | _, [] => []
  | idx, o :: rest =>
    (o.timers.filter (readyPred current_time new_time)).map (fun kt => (⟨idx⟩, kt.2))
      ++ extractFrom current_time new_time (idx + 1) rest

/-- `State::extract_ready_timers`: removes from every object the timers
with `current_time < target_time ≤ new_time` and returns them with their
owner ids.  (`HashMap::drain`/`partition` iterate in unspecified order; the
partition is modelled by `filter`.) -/
def State.extract_ready_timers (s : State) (new_time : GameTime) :
    State × List (Id × Timer) :=
  let ct := s.current_time
  ({ s with objects :=
      s.objects.map (fun o =>
        { o with timers := o.timers.filter (fun kt => !readyPred ct new_time kt) }) },
   extractFrom ct new_time 0 s.objects)

/-- `Message` (its struct lives in a file absent from this snapshot; the
fields are exactly those constructed throughout `object/api.rs` and
consumed by `world/mod.rs`). -/
structure Message where
  target : Id
  immediate_sender : Id
  original_user : Option Id
  name : String
  payload : SerializableValue

/-- `world::actor::ControlMessage`. -/
inductive ControlMessage where
  | ReloadCode
deriving DecidableEq, Repr

/-- `ObjectExecutor`: the cached per-kind interpreter.  Its interior (the
interpreter state) is irrelevant to every claim; only its presence in the
cache matters. -/
structure ObjectExecutor where
  loaded_main : Bool

/-- The executor-cache slice of `world::actor::WorldActor`. -/
structure WorldActor where
  executors : List (PackageReference × ObjectExecutor)

/-- `Handler<ControlMessage> for WorldActor`: `ReloadCode` drops every
cached executor (`self.executors = HashMap::new()`). -/
def WorldActor.handleControlMessage (a : WorldActor) : ControlMessage → WorldActor
  | .ReloadCode => { a with executors := [] }

/-- The slice of `World` the scripting API touches: the state, the
messages handed to the actor mailbox (`World::send_message`) and the
control messages (`World::reload_code`). -/
structure MWorld where
  state : State
  queue : List Message
  control : List ControlMessage

/-- Modelled from the spec: the thread-scoped execution context of the
current revision (`object/api.rs` reads `get_id`, `get_original_user`,
`current_message` and the `in_query` flag; the matching `executor.rs` is
absent from this snapshot, which carries an older revision without them). -/
structure ExecutionContext where
  id : Id
  original_user : Option Id
  in_query : Bool

/-- Script-level errors (`rlua::Error`): external messages or wrapped
state errors. -/
inductive LuaError where
  | external (msg : String)
  | stateError (e : Error)
deriving DecidableEq, Repr

/-- Modelled from the spec: the error every mutating API call fails fast
with during a query (spec §4.4: "all mutating API calls fail fast with an
explicit "cannot mutate during a query" error).  It is raised by the
`with_world_mut`/`with_world_state_mut` helpers, absent from this
snapshot. -/
def mutationRejected : LuaError := .external "cannot mutate during a query"

/-- The `Display` of `Id`: `#<index>`. -/
def Id.toStr (id : Id) : String := "#" ++ toString id.idx

/-- `api::send`.  API mutators return the (possibly unchanged) world next
to the call result, mirroring in-place mutation of the Rust world. -/
def apiSend (ctx : ExecutionContext) (w : MWorld) (object_id : Id)
    (name : String) (payload : SerializableValue) : MWorld × Except LuaError Unit :=
  if ctx.in_query then (w, .error mutationRejected)
  else
    let m : Message :=
      { target := object_id, immediate_sender := ctx.id
        original_user := ctx.original_user, name := name, payload := payload }
    ({ w with queue := w.queue ++ [m] }, .ok ())

/-- `api::set_state`. -/
def apiSetState (ctx : ExecutionContext) (w : MWorld) (id : Id) (key : String)
    (value : SerializableValue) : MWorld × Except LuaError SerializableValue :=
  if id ≠ ctx.id then (w, .error (.external "Can only set your own state."))
  else if ctx.in_query then (w, .error mutationRejected)
  else
    match w.state.set_state id key value with
    | .error e => (w, .error (.stateError e))
    | .ok r => ({ w with state := r.1 }, .ok (r.2.getD .nil))

/-- `api::get_state`. -/
def apiGetState (ctx : ExecutionContext) (w : MWorld) (id : Id) (key : String) :
    MWorld × Except LuaError SerializableValue :=
  if id ≠ ctx.id then (w, .error (.external "Can only get your own state."))
  else
    match w.state.get_state id key with
    | .error e => (w, .error (.stateError e))
    | .ok v => (w, .ok (v.getD .nil))

/-- `api::set_attr`. -/
def apiSetAttr (ctx : ExecutionContext) (w : MWorld) (id : Id) (key : String)
    (value : SerializableValue) : MWorld × Except LuaError SerializableValue :=
  if id ≠ ctx.id then (w, .error (.external "Can only set your own attrs."))
  else if ctx.in_query then (w, .error mutationRejected)
  else
    match w.state.set_attr id key value with
    | .error e => (w, .error (.stateError e))
    | .ok r => ({ w with state := r.1 }, .ok (r.2.getD .nil))

/-- `api::get_attr`. -/
def apiGetAttr (_ctx : ExecutionContext) (w : MWorld) (id : Id) (key : String) :
    MWorld × Except LuaError SerializableValue :=
  match w.state.get_attr id key with
  | .error e => (w, .error (.stateError e))
  | .ok v => (w, .ok (v.getD .nil))

/-- `api::create_object`: allocate immediately, re-parent, then send the
synthetic `"created"` message.  A `move_object` failure leaves the freshly
created object in place (the Rust `?` aborts after the push). -/
def apiCreateObject (ctx : ExecutionContext) (w : MWorld) (parent : Option Id)
    (kind : ObjectKind) (created_payload : SerializableValue) :
    MWorld × Except LuaError Id :=
  if ctx.in_query then (w, .error mutationRejected)
  else
    let c := w.state.create_object kind
    match c.1.move_object c.2 parent with
    | .error e => ({ w with state := c.1 }, .error (.stateError e))
    | .ok s2 =>
      let m : Message :=
        { target := c.2, immediate_sender := ctx.id
          original_user := ctx.original_user, name := "created"
          payload := created_payload }
      ({ w with state := s2, queue := w.queue ++ [m] }, .ok c.2)

/-- `api::find_room`: walk to the topmost ancestor.  Fuel totalizes the
Rust recursion; callers pass `objects.length + 1`, adequate on well-formed
states. -/
def findRoom (s : State) : Id → Nat → Except LuaError Id
  | _, 0 => .error (.external "fuel exhausted")
  | a, fuel + 1 =>
    match s.parent a with
    | .error e => .error (.stateError e)
    | .ok none => .ok a
    | .ok (some p) => findRoom s p fuel

/-- `api::shares_room`. -/
def sharesRoom (s : State) (a b : Id) (fuel : Nat) : Except LuaError Bool :=
  match findRoom s a fuel with
  | .error e => .error e
  | .ok room_a =>
    match findRoom s b fuel with
    | .error e => .error e
    | .ok room_b => .ok (room_a = room_b)

/-- The permission check of `api::move_object`: the mover must be the
child itself or share its room. -/
def moveCheck (ctx : ExecutionContext) (s : State) (child : Id) : Except LuaError Unit :=
  if child ≠ ctx.id then
    match sharesRoom s child ctx.id (s.objects.length + 1) with
    | .error e => .error e
    | .ok true => .ok ()
    | .ok false =>
      .error (.external "only something in the same room or the object itself can move an object")
  else .ok ()

/-- `api::move_object`: same-room permission check, then the state move
plus `"parent_changed"`/`"child_added"` notifications. -/
def apiMoveObject (ctx : ExecutionContext) (w : MWorld) (child : Id)
    (new_parent : Option Id) : MWorld × Except LuaError Unit :=
  match moveCheck ctx w.state child with
  | .error e => (w, .error e)
  | .ok _ =>
    let payload := SerializableValue.dict
      (insertKV (insertKV [] "child" (.string child.toStr)) "new_parent"
        (match new_parent with
         | some p => .string p.toStr
         | none => .nil))
    if ctx.in_query then (w, .error mutationRejected)
    else
      match w.state.move_object child new_parent with
      | .error e => (w, .error (.stateError e))
      | .ok s2 =>
        let m1 : Message :=
          { target := child, immediate_sender := ctx.id
            original_user := ctx.original_user, name := "parent_changed"
            payload := payload }
        let q1 := w.queue ++ [m1]
        let q2 :=
          match new_parent with
          | some p =>
            q1 ++ [{ target := p, immediate_sender := ctx.id
                     original_user := ctx.original_user, name := "child_added"
                     payload := payload : Message }]
          | none => q1
        ({ w with state := s2, queue := q2 }, .ok ())

/-- `api::set_delay`.  The `uuid` generated for an anonymous timer is
modelled by the `fresh_name` argument. -/
def apiSetDelay (ctx : ExecutionContext) (w : MWorld) (name : Option String)
    (delay : Float) (message_name : String) (payload : SerializableValue)
    (fresh_name : String) : MWorld × Except LuaError String :=
  if ctx.in_query then (w, .error mutationRejected)
  else if delay < 1.0 then (w, .error (.external "Delay expected to be > 1 second"))
  else
    let n := name.getD fresh_name
    let now := w.state.get_current_time
    let t : Timer :=
      { target_time := now + delay.toUInt64.toNat
        original_user := ctx.original_user
        message_name := message_name, payload := payload }
    match w.state.set_timer ctx.id n t with
    | .error e => (w, .error (.stateError e))
    | .ok s2 => ({ w with state := s2 }, .ok n)

/-- `api::clear_delay`. -/
def apiClearDelay (ctx : ExecutionContext) (w : MWorld) (name : String) :
    MWorld × Except LuaError String :=
  if ctx.in_query then (w, .error mutationRejected)
  else
    match w.state.clear_timer ctx.id name with
    | .error e => (w, .error (.stateError e))
    | .ok s2 => ({ w with state := s2 }, .ok name)

/-- `api::send_save_package_content`: owner-and-liveness check, store the
content, then `World::reload_code` (a `ControlMessage::ReloadCode` to the
actor). -/
def apiSendSavePackageContent (ctx : ExecutionContext) (w : MWorld)
    (name content : String) : MWorld × Except LuaError Unit :=
  match PackageReference.new name with
  | none => (w, .error (.external "invalid object kind"))
  | some destination_package =>
    if w.state.username ctx.id = some destination_package.user
        ∧ destination_package.is_live_package = true then
      if ctx.in_query then (w, .error mutationRejected)
      else
        let s2 := w.state.set_live_package_content destination_package content
        ({ w with state := s2, control := w.control ++ [ControlMessage.ReloadCode] }, .ok ())
    else
      (w, .error (.external "You can only write to live packages named $username/live.something"))

/-- `api::query`.  The nested handler execution
(`executor.run_main(actor, message, true)` for a matching kind, else
`actor.execute_query(message)`) is abstracted as the oracle `run`, invoked
only when the nested-query guard passes. -/
def apiQuery (run : Message → MWorld → MWorld × Except LuaError SerializableValue)
    (ctx : ExecutionContext) (w : MWorld) (object_id : Id) (name : String)
    (payload : SerializableValue) : MWorld × Except LuaError SerializableValue :=
  match w.state.kind ctx.id with
  | .error e => (w, .error (.stateError e))
  | .ok _ =>
    match w.state.kind object_id with
    | .error e => (w, .error (.stateError e))
    | .ok _ =>
      if ctx.in_query then
        (w, .error (.external "You currently cannot run a query from a query, sorry."))
      else
        run { target := object_id, immediate_sender := ctx.id
              original_user := ctx.original_user, name := name
              payload := payload } w

/-- `LuaHost` from `lua.rs`, over an abstract filesystem: `root` is the
canonicalized root (`LuaHost::new` canonicalizes it), `canon` models
`Path::canonicalize` (`none` = IO error), `readFile` models
`File::open` + `read_to_end`.  Paths are component lists; file contents
have the abstract type `β`. -/
structure LuaHost (β : Type) where
  root : List String
  canon : List String → Option (List String)
  readFile : List String → Option β

/-- Rust `Path::starts_with`: the second path is a component-wise prefix
of the first. -/
def pathStartsWith : List String → List String → Bool
  | _, [] => true
  | [], _ :: _ => false
  | a :: p, b :: q => decide (a = b) && pathStartsWith p q

/-- `LuaHost::system_package_root_to_buf`: append `<name>.lua` to the
root, canonicalize, reject canonical paths that leave the root, read. -/
def LuaHost.system_package_root_to_buf {β : Type} (host : LuaHost β)
    (name : String) : Except String β :=
  match host.canon (host.root ++ [name ++ ".lua"]) with
  | none => .error "io error: canonicalize failed"
  | some path =>
    if !pathStartsWith path host.root then .error "Cannot require outside of root"
    else
      match host.readFile path with
      | none => .error "io error: read failed"
      | some buf => .ok buf

/-- `LuaHost::filesystem_package_to_buf`: only system packages may be
loaded from the filesystem. -/
def LuaHost.filesystem_package_to_buf {β : Type} (host : LuaHost β)
    (reference : PackageReference) : Except String β :=
  if reference.package_root ≠ PackageReference.system_package_root then
    .error "not a system package"
  else
    host.system_package_root_to_buf reference.package

/-- The parent step on raw indices: the parent of object `i` when `i` is
in range and has one. -/
def par (s : State) (i : Nat) : Option Nat :=
  match s.objects.get? i with
  | none => none
  | some o => o.parent.map Id.idx

/-- `n`-fold iteration of the parent step from `i`; `none` once the chain
has ended (root reached, or index out of range). -/
def ancestor (s : State) : Nat → Nat → Option Nat
  | i, 0 => some i
  | i, n + 1 =>
    match par s i with
    | none => none
    | some j => ancestor s j n

/-- An optional parent pointer stays inside `n` objects. -/
def parentIdxOk (n : Nat) : Option Id → Prop
  | none => True
  | some p => p.idx < n

instance (n : Nat) : (op : Option Id) → Decidable (parentIdxOk n op)
  | none => .isTrue trivial
  | some p => Nat.decLt p.idx n

/-- Every stored parent pointer is in range. -/
def ParentsValid (s : State) : Prop :=
  ∀ o ∈ s.objects, parentIdxOk s.objects.length o.parent

/-- Forest invariant: from every object the parent chain dies within
`objects.length` steps, i.e. iterating `parent` terminates at a root. -/
def Bounded (s : State) : Prop :=
  ∀ i, i < s.objects.length → ancestor s i s.objects.length = none

instance (s : State) : Decidable (ParentsValid s) := by
  unfold ParentsValid
  infer_instance

instance (s : State) : Decidable (Bounded s) := by
  unfold Bounded
  infer_instance

/-- The well-formedness invariant maintained by the state operations. -/
def Wf (s : State) : Prop := ParentsValid s ∧ Bounded s

/-- No parent chain returns to its starting point. -/
def NoLoop (s : State) : Prop := ∀ y k, 0 < k → ancestor s y k ≠ some y

/-- The operation alphabet of claim C1: `create_object` / `move_object`. -/
inductive CMOp where
  | create (kind : ObjectKind)
  | move (child : Id) (new_parent : Option Id)

/-- Apply one C1 operation; a rejected move leaves the state unchanged. -/
def applyCMOp (s : State) : CMOp → State
  | .create k => (s.create_object k).1
  | .move c np =>
    match s.move_object c np with
    | .ok s1 => s1
    | .error _ => s

/-- Run a `create_object`/`move_object` sequence from a fresh state. -/
def execCM (ops : List CMOp) : State := ops.foldl applyCMOp State.new

/-- Every mutating `State` method, as an operation alphabet (claim C10). -/
inductive Op where
  | create_object (kind : ObjectKind)
  | move_object (child : Id) (new_parent : Option Id)
  | get_or_create_user (username user_type : String)
  | set_attr (id : Id) (key : String) (value : SerializableValue)
  | set_state (id : Id) (key : String) (value : SerializableValue)
  | set_live_package_content (p : PackageReference) (content : String)
  | set_timer (id : Id) (name : String) (t : Timer)
  | clear_timer (id : Id) (name : String)
  | set_current_time (t : GameTime)
  | extract_ready_timers (new_time : GameTime)

/-- Apply one state operation; failing calls leave the state unchanged. -/
def applyOp (s : State) : Op → State
  | .create_object k => (s.create_object k).1
  | .move_object c np =>
    match s.move_object c np with
    | .ok s1 => s1
    | .error _ => s
  | .get_or_create_user u ut => (s.get_or_create_user u ut).1
  | .set_attr id k v =>
    match s.set_attr id k v with
    | .ok r => r.1
    | .error _ => s
  | .set_state id k v =>
    match s.set_state id k v with
    | .ok r => r.1
    | .error _ => s
  | .set_live_package_content p c => s.set_live_package_content p c
  | .set_timer id n t =>
    match s.set_timer id n t with
    | .ok s1 => s1
    | .error _ => s
  | .clear_timer id n =>
    match s.clear_timer id n with
    | .ok s1 => s1
    | .error _ => s
  | .set_current_time t => s.set_current_time t
  | .extract_ready_timers nt => (s.extract_ready_timers nt).1

/-- Run a sequence of state operations from a fresh state. -/
def execOps (ops : List Op) : State := ops.foldl applyOp State.new

/-- The invariant of claim C10: every stored live-package key is live. -/
def LiveKeysLive (s : State) : Prop :=
  ∀ kv ∈ s.live_packages, kv.1.is_live_package = true

/-- Sample state for concrete instantiations: a fresh state after
registering the user "alice" (object #1, parented at the entrance #0). -/
def sampleState : State := (State.new.get_or_create_user "alice" "user").1

/-- Sample world around `sampleState`. -/
def sampleWorld : MWorld := { state := sampleState, queue := [], control := [] }

/-- Execution context of object #1 inside a query. -/
def queryCtx : ExecutionContext :=
  { id := ⟨1⟩, original_user := some ⟨1⟩, in_query := true }

/-- Execution context of object #1 in a normal (non-query) turn. -/
def mainCtx : ExecutionContext :=
  { id := ⟨1⟩, original_user := some ⟨1⟩, in_query := false }

/-- An object carrying two timers (target times 5 and 20), for concrete
instantiations. -/
def timerObj : Object :=
  { parent := none
    kind := ObjectKind.for_room
    attrs := []
    state := []
    timers := [("a", { target_time := 5, original_user := none, message_name := "tick", payload := .nil }), ("b", { target_time := 20, original_user := none, message_name := "tock", payload := .nil })] }

/-- Sample state holding `timerObj` as its only object. -/
def timerState : State :=
  { objects := [timerObj]
    entrance := ⟨0⟩
    users := []
    live_packages := []
    current_time := 0 }

theorem lookupKV_insertKV_self {κ α : Type} [DecidableEq κ] (m : List (κ × α)) (k : κ) (v : α) :
    lookupKV (insertKV m k v) k = some v := by
  induction m with
  | nil => simp [insertKV, lookupKV]
  | cons h t ih =>
    obtain ⟨k1, v1⟩ := h
    by_cases hk : k1 = k
    · simp [insertKV, lookupKV, hk]
    · simp [insertKV, lookupKV, hk, ih]

theorem mem_insertKV {κ α : Type} [DecidableEq κ] {m : List (κ × α)} {k : κ} {v : α}
    {x : κ × α} (hx : x ∈ insertKV m k v) : x = (k, v) ∨ x ∈ m := by
  induction m with
  | nil => simpa [insertKV] using hx
  | cons h t ih =>
    obtain ⟨k1, v1⟩ := h
    by_cases hk : k1 = k
    · simp only [insertKV, hk, if_pos rfl] at hx
      rcases List.mem_cons.mp hx with h1 | h1
      · exact Or.inl h1
      · exact Or.inr (List.mem_cons_of_mem _ h1)
    · simp only [insertKV, if_neg hk] at hx
      rcases List.mem_cons.mp hx with h1 | h1
      · exact Or.inr (h1 ▸ List.mem_cons_self _ _)
      · rcases ih h1 with h2 | h2
        · exact Or.inl h2
        · exact Or.inr (List.mem_cons_of_mem _ h2)

theorem listModify_length {α : Type} (f : α → α) (n : Nat) (l : List α) :
    (listModify f n l).length = l.length := by
  induction l generalizing n with
  | nil => cases n <;> rfl
  | cons a t ih =>
    cases n with
    | zero => rfl
    | succ m => simp [listModify, ih]

theorem listModify_get? {α : Type} (f : α → α) (n m : Nat) (l : List α) :
    (listModify f n l).get? m = if m = n then (l.get? m).map f else l.get? m := by
  induction l generalizing n m with
  | nil => simp [listModify]
  | cons a t ih =>
    cases n with
    | zero =>
      cases m with
      | zero => simp [listModify]
      | succ m2 => simp [listModify]
    | succ n2 =>
      cases m with
      | zero => simp [listModify]
      | succ m2 => simpa [listModify] using ih n2 m2

theorem ancestor_zero (s : State) (i : Nat) : ancestor s i 0 = some i := rfl

theorem ancestor_succ_of_none {s : State} {i n : Nat} (h : ancestor s i n = none) :
    ancestor s i (n + 1) = none := by
  induction n generalizing i with
  | zero => simp [ancestor] at h
  | succ m ih =>
    rw [ancestor] at h ⊢
    cases hp : par s i with
    | none => rfl
    | some j =>
      rw [hp] at h
      exact ih h

theorem ancestor_none_mono {s : State} {i n m : Nat} (h : ancestor s i n = none)
    (hnm : n ≤ m) : ancestor s i m = none := by
  induction m with
  | zero =>
    have hz : n = 0 := Nat.le_zero.mp hnm
    exact hz ▸ h
  | succ k ih =>
    rcases Nat.lt_or_ge n (k + 1) with h1 | h1
    · exact ancestor_succ_of_none (ih (Nat.lt_succ_iff.mp h1))
    · have : n = k + 1 := Nat.le_antisymm hnm h1
      exact this ▸ h

theorem ancestor_add (s : State) (i a b : Nat) :
    ancestor s i (a + b) =
      match ancestor s i a with
      | none => none
      | some j => ancestor s j b := by
  induction a generalizing i with
  | zero => simp [ancestor]
  | succ a2 ih =>
    have hshape : a2 + 1 + b = (a2 + b) + 1 := by omega
    rw [hshape]
    rw [ancestor, ancestor]
    cases hp : par s i with
    | none => rfl
    | some j => exact ih j

theorem ancestor_one (s : State) (i : Nat) : ancestor s i 1 = par s i := by
  rw [ancestor]
  cases par s i <;> rfl

theorem ancestor_loop_pump {s : State} {y k : Nat} (h : ancestor s y k = some y)
    (q : Nat) : ancestor s y (q * k) = some y := by
  induction q with
  | zero => simp [ancestor]
  | succ q2 ih =>
    have hq : (q2 + 1) * k = q2 * k + k := by ring
    rw [hq, ancestor_add, ih]
    exact h

theorem ancestor_ne_none_of_loop {s : State} {y k : Nat} (h : ancestor s y k = some y)
    (hk : 0 < k) (m : Nat) : ancestor s y m ≠ none := by
  intro hm
  have h1 : ancestor s y (m * k) = some y := ancestor_loop_pump h m
  have h2 : m ≤ m * k := Nat.le_mul_of_pos_right m hk
  rw [ancestor_none_mono hm h2] at h1
  cases h1

theorem get?_some_lt {α : Type} {l : List α} {n : Nat} {a : α} (h : l.get? n = some a) :
    n < l.length := by
  by_contra hn
  rw [List.get?_eq_none.mpr (Nat.le_of_not_lt hn)] at h
  cases h

theorem par_src_lt {s : State} {i j : Nat} (h : par s i = some j) :
    i < s.objects.length := by
  unfold par at h
  cases hg : s.objects.get? i with
  | none => rw [hg] at h; cases h
  | some o => exact get?_some_lt hg

theorem par_lt {s : State} (hv : ParentsValid s) {i j : Nat} (h : par s i = some j) :
    j < s.objects.length := by
  unfold par at h
  cases hg : s.objects.get? i with
  | none => rw [hg] at h; cases h
  | some o =>
    rw [hg] at h
    have h2 : Option.map Id.idx o.parent = some j := h
    cases hp : o.parent with
    | none => rw [hp] at h2; cases h2
    | some p =>
      rw [hp] at h2
      have hj : p.idx = j := by simpa using h2
      have hmem : o ∈ s.objects := List.get?_mem hg
      have hok := hv o hmem
      rw [hp] at hok
      exact hj ▸ hok

theorem ancestor_lt {s : State} (hv : ParentsValid s) {i j n : Nat}
    (hi : i < s.objects.length) (h : ancestor s i n = some j) :
    j < s.objects.length := by
  induction n generalizing i with
  | zero =>
    have : i = j := by simpa [ancestor] using h
    exact this ▸ hi
  | succ m ih =>
    rw [ancestor] at h
    cases hp : par s i with
    | none => rw [hp] at h; cases h
    | some u =>
      rw [hp] at h
      exact ih (par_lt hv hp) h

theorem bounded_of_noLoop {s : State} (hv : ParentsValid s) (hnl : NoLoop s) :
    Bounded s := by
  intro i hi
  by_contra hne
  have hall : ∀ m, m ≤ s.objects.length →
      ∃ j, ancestor s i m = some j ∧ j < s.objects.length := by
    intro m hm
    cases hc : ancestor s i m with
    | none => exact absurd (ancestor_none_mono hc hm) hne
    | some j => exact ⟨j, rfl, ancestor_lt hv hi hc⟩
  have key : ∀ a b, a < b → b ≤ s.objects.length →
      (ancestor s i a).getD 0 = (ancestor s i b).getD 0 → False := by
    intro a b hab hble hfeq
    obtain ⟨ja, hja, _⟩ := hall a (Nat.le_of_lt (Nat.lt_of_lt_of_le hab hble))
    obtain ⟨jb, hjb, _⟩ := hall b hble
    have hje : ja = jb := by
      rw [hja, hjb] at hfeq
      simpa using hfeq
    subst hje
    have hsplit := ancestor_add s i a (b - a)
    rw [Nat.add_sub_cancel' (Nat.le_of_lt hab)] at hsplit
    rw [hja] at hsplit
    have hlp : ancestor s ja (b - a) = some ja := hsplit.symm.trans hjb
    exact hnl ja (b - a) (by omega) hlp
  have hmaps : ∀ m ∈ Finset.range (s.objects.length + 1),
      (ancestor s i m).getD 0 ∈ Finset.range s.objects.length := by
    intro m hm
    obtain ⟨j, hj, hjl⟩ := hall m (Nat.lt_succ_iff.mp (Finset.mem_range.mp hm))
    simpa [hj] using hjl
  have hcard : (Finset.range s.objects.length).card <
      (Finset.range (s.objects.length + 1)).card := by simp
  obtain ⟨a, ha, b, hb, hab, hfab⟩ :=
    Finset.exists_ne_map_eq_of_card_lt_of_maps_to hcard hmaps
  rcases Nat.lt_or_ge a b with hlt | hge
  · exact key a b hlt (Nat.lt_succ_iff.mp (Finset.mem_range.mp hb)) hfab
  · have hlt2 : b < a := Nat.lt_of_le_of_ne hge (fun he => hab he.symm)
    exact key b a hlt2 (Nat.lt_succ_iff.mp (Finset.mem_range.mp ha)) hfab.symm

theorem noLoop_of_bounded {s : State} (hb : Bounded s) : NoLoop s := by
  intro y k hk hloop
  have hy : y < s.objects.length := by
    cases k with
    | zero => omega
    | succ k2 =>
      rw [ancestor] at hloop
      cases hp : par s y with
      | none => rw [hp] at hloop; cases hloop
      | some j =>
        rw [hp] at hloop
        exact par_src_lt hp
  exact ancestor_ne_none_of_loop hloop hk _ (hb y hy)

theorem Id.eq_of_idx {a b : Id} (h : a.idx = b.idx) : a = b := by
  cases a
  cases b
  simpa using h

theorem object_ok {s : State} {id : Id} {o : Object}
    (h : s.objects.get? id.idx = some o) : s.object id = .ok o := by
  unfold State.object
  rw [h]

theorem object_err {s : State} {id : Id} (h : s.objects.get? id.idx = none) :
    s.object id = .error (.InvalidObjectId id) := by
  unfold State.object
  rw [h]

theorem object_ok_inv {s : State} {id : Id} {o : Object} (h : s.object id = .ok o) :
    s.objects.get? id.idx = some o := by
  unfold State.object at h
  cases hg : s.objects.get? id.idx with
  | some o2 =>
    rw [hg] at h
    exact congrArg some (Except.ok.inj h)
  | none =>
    rw [hg] at h
    cases h

theorem par_eq_of_object {s : State} {q : Id} {o : Object}
    (h : s.objects.get? q.idx = some o) : par s q.idx = o.parent.map Id.idx := by
  unfold par
  rw [h]

theorem par_none_of_invalid {s : State} {q : Nat} (h : s.objects.length ≤ q) :
    par s q = none := by
  unfold par
  rw [List.get?_eq_none.mpr h]

theorem causes_cycle_false_avoid {s : State} {c : Id} :
    ∀ {fuel : Nat} {q : Id}, s.causes_cycle c q fuel = .ok false →
      ∀ n, ancestor s q.idx n ≠ some c.idx := by
  intro fuel
  induction fuel with
  | zero =>
    intro q h
    rw [State.causes_cycle] at h
    cases h
  | succ f ih =>
    intro q h n
    rw [State.causes_cycle] at h
    by_cases hcq : c = q
    · rw [if_pos hcq] at h
      cases h
    · rw [if_neg hcq] at h
      cases hobj : s.object q with
      | error e =>
        rw [hobj] at h
        cases h
      | ok o =>
        rw [hobj] at h
        have h2 : (match o.parent with
          | none => Except.ok false
          | some gp => s.causes_cycle c gp f) = Except.ok false := h
        have hget := object_ok_inv hobj
        cases hp : o.parent with
        | none =>
          cases n with
          | zero =>
            intro hn
            exact hcq (Id.eq_of_idx (Option.some.inj hn).symm)
          | succ n2 =>
            rw [ancestor, par_eq_of_object hget, hp]
            intro hn
            cases hn
        | some gp =>
          rw [hp] at h2
          cases n with
          | zero =>
            intro hn
            exact hcq (Id.eq_of_idx (Option.some.inj hn).symm)
          | succ n2 =>
            rw [ancestor, par_eq_of_object hget, hp]
            exact ih h2 n2

theorem causes_cycle_true_of_reach {s : State} {c : Id} :
    ∀ {n : Nat} {p : Id} {fuel : Nat}, ancestor s p.idx n = some c.idx → n < fuel →
      s.causes_cycle c p fuel = .ok true := by
  intro n
  induction n with
  | zero =>
    intro p fuel h hf
    have hpc : c = p := Id.eq_of_idx (Option.some.inj h).symm
    cases fuel with
    | zero => omega
    | succ f =>
      rw [State.causes_cycle, if_pos hpc]
  | succ n2 ih =>
    intro p fuel h hf
    rw [ancestor] at h
    cases hp : par s p.idx with
    | none =>
      rw [hp] at h
      cases h
    | some j =>
      rw [hp] at h
      cases fuel with
      | zero => omega
      | succ f =>
        rw [State.causes_cycle]
        by_cases hcp : c = p
        · rw [if_pos hcp]
        · rw [if_neg hcp]
          unfold par at hp
          cases hg : s.objects.get? p.idx with
          | none =>
            rw [hg] at hp
            cases hp
          | some o =>
            rw [hg] at hp
            have hp2 : Option.map Id.idx o.parent = some j := hp
            cases hpar : o.parent with
            | none =>
              rw [hpar] at hp2
              cases hp2
            | some gp =>
              rw [hpar] at hp2
              have hgj : gp.idx = j := Option.some.inj hp2
              rw [object_ok hg]
              show (match o.parent with
                | none => Except.ok false
                | some gp => s.causes_cycle c gp f) = Except.ok true
              rw [hpar]
              have hj2 : ancestor s gp.idx n2 = some c.idx := by rw [hgj]; exact h
              exact ih hj2 (by omega)

theorem causes_cycle_false_of_dead {s : State} (hv : ParentsValid s) {c : Id} :
    ∀ {d : Nat} {p : Id} {fuel : Nat}, d < fuel → p.idx < s.objects.length →
      ancestor s p.idx d = none → (∀ n, ancestor s p.idx n ≠ some c.idx) →
      s.causes_cycle c p fuel = .ok false := by
  intro d
  induction d with
  | zero =>
    intro p fuel hf hp hdead havoid
    cases hdead
  | succ d2 ih =>
    intro p fuel hf hp hdead havoid
    cases fuel with
    | zero => omega
    | succ f =>
      have hcp : ¬ c = p := by
        intro hcp
        exact havoid 0 (by rw [ancestor_zero, hcp])
      rw [State.causes_cycle, if_neg hcp]
      cases hg : s.objects.get? p.idx with
      | none => exact absurd (List.get?_eq_none.mp hg) (by omega)
      | some o =>
        rw [object_ok hg]
        show (match o.parent with
          | none => Except.ok false
          | some gp2 => s.causes_cycle c gp2 f) = Except.ok false
        rw [ancestor, par_eq_of_object hg] at hdead
        cases hpar : o.parent with
        | none => rfl
        | some gp =>
          rw [hpar] at hdead
          have hmem : o ∈ s.objects := List.get?_mem hg
          have hok := hv o hmem
          rw [hpar] at hok
          have hgp : gp.idx < s.objects.length := hok
          have hdf : d2 < f := by omega
          have havoid2 : ∀ n, ancestor s gp.idx n ≠ some c.idx := by
            intro n hn
            refine havoid (n + 1) ?_
            rw [ancestor, par_eq_of_object hg, hpar]
            exact hn
          exact ih hdf hgp hdead havoid2

theorem causes_cycle_false_head {s : State} {c p : Id} {fuel : Nat}
    (h : s.causes_cycle c p fuel = .ok false) :
    c ≠ p ∧ p.idx < s.objects.length := by
  cases fuel with
  | zero =>
    rw [State.causes_cycle] at h
    cases h
  | succ f =>
    rw [State.causes_cycle] at h
    by_cases hcp : c = p
    · rw [if_pos hcp] at h
      cases h
    · rw [if_neg hcp] at h
      refine ⟨hcp, ?_⟩
      cases hg : s.objects.get? p.idx with
      | none =>
        rw [object_err hg] at h
        cases h
      | some o => exact get?_some_lt hg

theorem move_ok_some_inv {s : State} {c p : Id} {s2 : State}
    (h : s.move_object c (some p) = .ok s2) :
    s.causes_cycle c p (s.objects.length + 1) = .ok false ∧
    c.idx < s.objects.length ∧
    s2 = { s with objects := listModify (fun o => { o with parent := some p }) c.idx s.objects } := by
  unfold State.move_object at h
  have h2 : (match s.causes_cycle c p (s.objects.length + 1) with
    | Except.error e => Except.error e
    | Except.ok true => Except.error (Error.CyclicHierarchy c p)
    | Except.ok false => s.modifyObject c (fun o => { o with parent := some p })) = Except.ok s2 := h
  cases hcc : s.causes_cycle c p (s.objects.length + 1) with
  | error e =>
    rw [hcc] at h2
    cases h2
  | ok b =>
    rw [hcc] at h2
    cases b with
    | true => cases h2
    | false =>
      unfold State.modifyObject at h2
      cases hg : s.objects.get? c.idx with
      | none =>
        rw [hg] at h2
        cases h2
      | some o =>
        rw [hg] at h2
        exact ⟨rfl, get?_some_lt hg, (Except.ok.inj h2).symm⟩

theorem move_ok_none_inv {s : State} {c : Id} {s2 : State}
    (h : s.move_object c none = .ok s2) :
    c.idx < s.objects.length ∧
    s2 = { s with objects := listModify (fun o => { o with parent := none }) c.idx s.objects } := by
  unfold State.move_object State.modifyObject at h
  cases hg : s.objects.get? c.idx with
  | none =>
    rw [hg] at h
    cases h
  | some o =>
    rw [hg] at h
    exact ⟨get?_some_lt hg, (Except.ok.inj h).symm⟩

theorem ancestor_agree_avoid {s1 s2 : State} {cidx : Nat}
    (hpar : ∀ j, j ≠ cidx → par s2 j = par s1 j) :
    ∀ n q, (∀ m, ancestor s1 q m ≠ some cidx) → ancestor s2 q n = ancestor s1 q n := by
  intro n
  induction n with
  | zero =>
    intro q h
    rfl
  | succ n2 ih =>
    intro q h
    have hq : q ≠ cidx := fun he => h 0 (by rw [ancestor_zero, he])
    rw [ancestor, ancestor, hpar q hq]
    cases hp : par s1 q with
    | none => rfl
    | some u =>
      refine ih u ?_
      intro m hm
      refine h (m + 1) ?_
      rw [ancestor, hp]
      exact hm

theorem ancestor_agree_avoid_right {s1 s2 : State} {cidx : Nat}
    (hpar : ∀ j, j ≠ cidx → par s2 j = par s1 j) :
    ∀ n q, (∀ m, ancestor s2 q m ≠ some cidx) → ancestor s2 q n = ancestor s1 q n := by
  intro n
  induction n with
  | zero =>
    intro q h
    rfl
  | succ n2 ih =>
    intro q h
    have hq : q ≠ cidx := fun he => h 0 (by rw [ancestor_zero, he])
    rw [ancestor, ancestor, hpar q hq]
    cases hp : par s1 q with
    | none => rfl
    | some u =>
      refine ih u ?_
      intro m hm
      refine h (m + 1) ?_
      rw [ancestor, hpar q hq, hp]
      exact hm

theorem ancestor_loop_shift {t : State} {y z k m : Nat}
    (hl : ancestor t y k = some y) (hz : ancestor t y m = some z) :
    ancestor t z k = some z := by
  have h1 := ancestor_add t y m k
  rw [hz] at h1
  have h1b : ancestor t y (m + k) = ancestor t z k := h1
  have h2 := ancestor_add t y k m
  rw [hl] at h2
  have h2b : ancestor t y (k + m) = ancestor t y m := h2
  rw [Nat.add_comm k m] at h2b
  exact h1b.symm.trans (h2b.trans hz)

theorem parentsValid_iff {s : State} :
    ParentsValid s ↔
      ∀ j o, s.objects.get? j = some o → parentIdxOk s.objects.length o.parent := by
  constructor
  · intro h j o hg
    exact h o (List.get?_mem hg)
  · intro h o hmem
    obtain ⟨n, hn⟩ := List.mem_iff_get?.mp hmem
    exact h n o hn

theorem parentIdxOk_mono {n m : Nat} (hnm : n ≤ m) {op : Option Id}
    (h : parentIdxOk n op) : parentIdxOk m op := by
  cases op with
  | none => trivial
  | some p => exact Nat.lt_of_lt_of_le h hnm

theorem create_objects (s : State) (k : ObjectKind) :
    (s.create_object k).1.objects = s.objects ++ [Object.new k] := rfl

theorem create_length (s : State) (k : ObjectKind) :
    (s.create_object k).1.objects.length = s.objects.length + 1 := by
  rw [create_objects]
  simp

theorem create_id (s : State) (k : ObjectKind) :
    (s.create_object k).2 = ⟨s.objects.length⟩ := rfl

theorem par_create {s : State} (k : ObjectKind) (j : Nat) :
    par (s.create_object k).1 j = if j < s.objects.length then par s j else none := by
  unfold par
  rw [create_objects]
  by_cases hj : j < s.objects.length
  · rw [if_pos hj, List.get?_append hj]
  · rw [if_neg hj]
    by_cases hj2 : j = s.objects.length
    · subst hj2
      rw [List.get?_concat_length]
      rfl
    · have hle : (s.objects ++ [Object.new k]).length ≤ j := by
        simp
        omega
      rw [List.get?_eq_none.mpr hle]

theorem wf_create {s : State} (h : Wf s) (k : ObjectKind) : Wf (s.create_object k).1 := by
  obtain ⟨hv, hb⟩ := h
  constructor
  · rw [parentsValid_iff]
    intro j o hg
    rw [create_objects] at hg
    rw [create_length]
    rcases Nat.lt_or_ge j s.objects.length with hj | hj
    · rw [List.get?_append hj] at hg
      exact parentIdxOk_mono (by omega) ((parentsValid_iff.mp hv) j o hg)
    · by_cases hj2 : j = s.objects.length
      · subst hj2
        rw [List.get?_concat_length] at hg
        rw [← Option.some.inj hg]
        trivial
      · have hle : (s.objects ++ [Object.new k]).length ≤ j := by
          simp
          omega
        rw [List.get?_eq_none.mpr hle] at hg
        cases hg
  · have agree : ∀ m y, y < s.objects.length →
        ancestor (s.create_object k).1 y m = ancestor s y m := by
      intro m
      induction m with
      | zero =>
        intro y hy
        rfl
      | succ m2 ih =>
        intro y hy
        rw [ancestor, ancestor, par_create k y, if_pos hy]
        cases hp : par s y with
        | none => rfl
        | some u => exact ih u (par_lt hv hp)
    intro i hi
    rw [create_length] at hi
    rcases Nat.lt_or_ge i s.objects.length with hil | hil
    · rw [create_length, agree _ i hil]
      exact ancestor_none_mono (hb i hil) (by omega)
    · have hieq : i = s.objects.length := by omega
      subst hieq
      rw [create_length, ancestor, par_create k _, if_neg (by omega)]

theorem wf_modifyParent {s t : State} (hv : ParentsValid s) (hb : Bounded s) {c : Id}
    {v : Option Id} (hc : c.idx < s.objects.length)
    (ht : t = { s with objects := listModify (fun o => { o with parent := v }) c.idx s.objects })
    (hok : parentIdxOk s.objects.length v)
    (havoid : ∀ gp, v = some gp → ∀ n, ancestor s gp.idx n ≠ some c.idx) :
    Wf t := by
  have htobj : t.objects = listModify (fun o => { o with parent := v }) c.idx s.objects := by
    rw [ht]
  have hlen : t.objects.length = s.objects.length := by
    rw [htobj, listModify_length]
  have hget : ∀ j, t.objects.get? j =
      if j = c.idx then (s.objects.get? j).map (fun o => { o with parent := v })
      else s.objects.get? j := by
    intro j
    rw [htobj, listModify_get?]
  obtain ⟨o0, ho0⟩ : ∃ o0, s.objects.get? c.idx = some o0 := by
    cases hg0 : s.objects.get? c.idx with
    | none => exact absurd (List.get?_eq_none.mp hg0) (by omega)
    | some o0 => exact ⟨o0, rfl⟩
  have hpar_ne : ∀ j, j ≠ c.idx → par t j = par s j := by
    intro j hj
    unfold par
    rw [hget j, if_neg hj]
  have hpar_eq : par t c.idx = v.map Id.idx := by
    unfold par
    rw [hget c.idx, if_pos rfl, ho0]
    rfl
  have hpv : ParentsValid t := by
    rw [parentsValid_iff]
    intro j o hg
    rw [hget j] at hg
    rw [hlen]
    by_cases hj : j = c.idx
    · subst hj
      rw [if_pos rfl, ho0] at hg
      have ho : { o0 with parent := v } = o := Option.some.inj hg
      rw [← ho]
      exact hok
    · rw [if_neg hj] at hg
      exact (parentsValid_iff.mp hv) j o hg
  refine ⟨hpv, bounded_of_noLoop hpv ?_⟩
  intro y k hk hloop
  by_cases hx : ∃ m, ancestor t y m = some c.idx
  · obtain ⟨m, hmx⟩ := hx
    have hcl : ancestor t c.idx k = some c.idx := ancestor_loop_shift hloop hmx
    cases k with
    | zero => omega
    | succ k2 =>
      rw [ancestor, hpar_eq] at hcl
      cases hvv : v with
      | none =>
        rw [hvv] at hcl
        exact Option.noConfusion hcl
      | some gp =>
        rw [hvv] at hcl
        have hcl2 : ancestor t gp.idx k2 = some c.idx := hcl
        rw [ancestor_agree_avoid hpar_ne k2 gp.idx (havoid gp hvv)] at hcl2
        exact havoid gp hvv k2 hcl2
  · push_neg at hx
    rw [ancestor_agree_avoid_right hpar_ne k y hx] at hloop
    exact noLoop_of_bounded hb y k hk hloop

theorem wf_move {s : State} (h : Wf s) {c : Id} {np : Option Id} {s2 : State}
    (hm : s.move_object c np = .ok s2) : Wf s2 := by
  obtain ⟨hv, hb⟩ := h
  cases np with
  | none =>
    obtain ⟨hc, hs2⟩ := move_ok_none_inv hm
    exact wf_modifyParent hv hb hc hs2 trivial (fun gp hgp => nomatch hgp)
  | some p =>
    obtain ⟨hcc, hc, hs2⟩ := move_ok_some_inv hm
    obtain ⟨hcp, hp⟩ := causes_cycle_false_head hcc
    have havoid := causes_cycle_false_avoid hcc
    refine wf_modifyParent hv hb hc hs2 hp ?_
    intro gp hgp n
    cases hgp
    exact havoid n

theorem wf_new : Wf State.new := ⟨by decide, by decide⟩

theorem wf_applyCMOp {s : State} (h : Wf s) (op : CMOp) : Wf (applyCMOp s op) := by
  cases op with
  | create k => exact wf_create h k
  | move c np =>
    show Wf (match s.move_object c np with | .ok s1 => s1 | .error _ => s)
    cases hm : s.move_object c np with
    | ok s1 => exact wf_move h hm
    | error e => exact h

theorem wf_foldlCM {s : State} (h : Wf s) (ops : List CMOp) :
    Wf (ops.foldl applyCMOp s) := by
  induction ops generalizing s with
  | nil => exact h
  | cons op rest ih => exact ih (wf_applyCMOp h op)

theorem wf_execCM (ops : List CMOp) : Wf (execCM ops) := wf_foldlCM wf_new ops

theorem move_err_of_cc {s : State} {c p : Id} {e : Error}
    (hcc : s.causes_cycle c p (s.objects.length + 1) = .error e) :
    s.move_object c (some p) = .error e := by
  show (match s.causes_cycle c p (s.objects.length + 1) with
    | Except.error e => Except.error e
    | Except.ok true => Except.error (Error.CyclicHierarchy c p)
    | Except.ok false => s.modifyObject c (fun o => { o with parent := some p })) = .error e
  rw [hcc]

theorem move_cyc_of_cc_true {s : State} {c p : Id}
    (hcc : s.causes_cycle c p (s.objects.length + 1) = .ok true) :
    s.move_object c (some p) = .error (.CyclicHierarchy c p) := by
  show (match s.causes_cycle c p (s.objects.length + 1) with
    | Except.error e => Except.error e
    | Except.ok true => Except.error (Error.CyclicHierarchy c p)
    | Except.ok false => s.modifyObject c (fun o => { o with parent := some p })) =
      .error (.CyclicHierarchy c p)
  rw [hcc]

theorem move_of_cc_false {s : State} {c p : Id}
    (hcc : s.causes_cycle c p (s.objects.length + 1) = .ok false) :
    s.move_object c (some p) = s.modifyObject c (fun o => { o with parent := some p }) := by
  show (match s.causes_cycle c p (s.objects.length + 1) with
    | Except.error e => Except.error e
    | Except.ok true => Except.error (Error.CyclicHierarchy c p)
    | Except.ok false => s.modifyObject c (fun o => { o with parent := some p })) = _
  rw [hcc]

/-- C1: for every sequence of `create_object`/`move_object` operations run
from a fresh `State`, the parent relation stays a forest — iterating
`parent` from any object reaches a root (`none`) within `objects.length`
steps — and any `move_object(child, new_parent)` where `new_parent` is
`child` itself or a descendant of `child` (the parent chain of
`new_parent` passes through `child`) returns `CyclicHierarchy` and leaves
the state unchanged. -/
theorem c1_forest_and_cycle_rejection (ops : List CMOp) (child p : Id) (n : Nat)
    (hdesc : ancestor (execCM ops) p.idx n = some child.idx) :
    Bounded (execCM ops) ∧
    (execCM ops).move_object child (some p) = .error (.CyclicHierarchy child p) ∧
    applyCMOp (execCM ops) (.move child (some p)) = execCM ops := by
  obtain ⟨hv, hb⟩ := wf_execCM ops
  have hcc : (execCM ops).causes_cycle child p ((execCM ops).objects.length + 1) = .ok true := by
    by_cases hp : p.idx < (execCM ops).objects.length
    · have hn : n ≤ (execCM ops).objects.length := by
        by_contra hgt
        push_neg at hgt
        rw [ancestor_none_mono (hb p.idx hp) (Nat.le_of_lt hgt)] at hdesc
        cases hdesc
      exact causes_cycle_true_of_reach hdesc (by omega)
    · push_neg at hp
      cases n with
      | zero =>
        have hpc : child = p := Id.eq_of_idx (Option.some.inj hdesc).symm
        rw [State.causes_cycle, if_pos hpc]
      | succ n2 =>
        rw [ancestor, par_none_of_invalid hp] at hdesc
        cases hdesc
  have hmv := move_cyc_of_cc_true hcc
  refine ⟨hb, hmv, ?_⟩
  show (match (execCM ops).move_object child (some p) with
    | Except.ok s1 => s1
    | Except.error _ => execCM ops) = execCM ops
  rw [hmv]

/-- Witness for C1 at a concrete run: create a second object, parent it at
the entrance, then try to move the entrance under its own child. -/
theorem c1_witness :
    Bounded (execCM [CMOp.create ObjectKind.for_room, CMOp.move ⟨1⟩ (some ⟨0⟩)]) ∧
    (execCM [CMOp.create ObjectKind.for_room, CMOp.move ⟨1⟩ (some ⟨0⟩)]).move_object ⟨0⟩ (some ⟨1⟩)
      = .error (.CyclicHierarchy ⟨0⟩ ⟨1⟩) ∧
    applyCMOp (execCM [CMOp.create ObjectKind.for_room, CMOp.move ⟨1⟩ (some ⟨0⟩)])
      (.move ⟨0⟩ (some ⟨1⟩))
      = execCM [CMOp.create ObjectKind.for_room, CMOp.move ⟨1⟩ (some ⟨0⟩)] :=
  c1_forest_and_cycle_rejection [CMOp.create ObjectKind.for_room, CMOp.move ⟨1⟩ (some ⟨0⟩)]
    ⟨0⟩ ⟨1⟩ 1 (by decide)

theorem live_packages_modifyObject {s : State} {id : Id} {f : Object → Object} {s2 : State}
    (h : s.modifyObject id f = .ok s2) : s2.live_packages = s.live_packages := by
  unfold State.modifyObject at h
  cases hg : s.objects.get? id.idx with
  | none =>
    rw [hg] at h
    cases h
  | some o =>
    rw [hg] at h
    rw [← Except.ok.inj h]

theorem live_packages_move {s : State} {c : Id} {np : Option Id} {s2 : State}
    (h : s.move_object c np = .ok s2) : s2.live_packages = s.live_packages := by
  cases np with
  | none =>
    obtain ⟨_, hs2⟩ := move_ok_none_inv h
    rw [hs2]
  | some p =>
    obtain ⟨_, _, hs2⟩ := move_ok_some_inv h
    rw [hs2]

theorem live_packages_set_attr {s : State} {id : Id} {k : String}
    {v : SerializableValue} {r : State × Option SerializableValue}
    (h : s.set_attr id k v = .ok r) : r.1.live_packages = s.live_packages := by
  unfold State.set_attr at h
  cases hg : s.objects.get? id.idx with
  | none =>
    rw [hg] at h
    cases h
  | some o =>
    rw [hg] at h
    rw [← Except.ok.inj h]

theorem live_packages_set_state {s : State} {id : Id} {k : String}
    {v : SerializableValue} {r : State × Option SerializableValue}
    (h : s.set_state id k v = .ok r) : r.1.live_packages = s.live_packages := by
  unfold State.set_state at h
  cases hg : s.objects.get? id.idx with
  | none =>
    rw [hg] at h
    cases h
  | some o =>
    rw [hg] at h
    rw [← Except.ok.inj h]

theorem live_packages_gocu (s : State) (u ut : String) :
    (s.get_or_create_user u ut).1.live_packages = s.live_packages := by
  unfold State.get_or_create_user
  cases lookupKV s.users u with
  | some id => rfl
  | none => rfl

theorem liveKeys_of_eq {s t : State} (he : t.live_packages = s.live_packages)
    (h : LiveKeysLive s) : LiveKeysLive t := by
  intro kv hkv
  exact h kv (he ▸ hkv)

theorem liveKeys_set_live {s : State} (h : LiveKeysLive s) (p : PackageReference)
    (c : String) : LiveKeysLive (s.set_live_package_content p c) := by
  unfold State.set_live_package_content
  cases hl : p.is_live_package with
  | false =>
    simp only [hl, Bool.not_false, if_pos]
    exact h
  | true =>
    simp only [hl, Bool.not_true, if_neg, Bool.false_eq_true, not_false_iff]
    intro kv hkv
    rcases mem_insertKV hkv with h1 | h1
    · rw [h1]
      exact hl
    · exact h kv h1

theorem liveKeys_applyOp {s : State} (h : LiveKeysLive s) (op : Op) :
    LiveKeysLive (applyOp s op) := by
  cases op with
  | create_object k => exact liveKeys_of_eq rfl h
  | move_object c np =>
    show LiveKeysLive (match s.move_object c np with | .ok s1 => s1 | .error _ => s)
    cases hm : s.move_object c np with
    | ok s1 => exact liveKeys_of_eq (live_packages_move hm) h
    | error e => exact h
  | get_or_create_user u ut => exact liveKeys_of_eq (live_packages_gocu s u ut) h
  | set_attr id k v =>
    show LiveKeysLive (match s.set_attr id k v with | .ok r => r.1 | .error _ => s)
    cases hm : s.set_attr id k v with
    | ok r => exact liveKeys_of_eq (live_packages_set_attr hm) h
    | error e => exact h
  | set_state id k v =>
    show LiveKeysLive (match s.set_state id k v with | .ok r => r.1 | .error _ => s)
    cases hm : s.set_state id k v with
    | ok r => exact liveKeys_of_eq (live_packages_set_state hm) h
    | error e => exact h
  | set_live_package_content p c => exact liveKeys_set_live h p c
  | set_timer id n t =>
    show LiveKeysLive (match s.set_timer id n t with | .ok s1 => s1 | .error _ => s)
    cases hm : s.set_timer id n t with
    | ok s1 => exact liveKeys_of_eq (live_packages_modifyObject hm) h
    | error e => exact h
  | clear_timer id n =>
    show LiveKeysLive (match s.clear_timer id n with | .ok s1 => s1 | .error _ => s)
    cases hm : s.clear_timer id n with
    | ok s1 => exact liveKeys_of_eq (live_packages_modifyObject hm) h
    | error e => exact h
  | set_current_time t => exact liveKeys_of_eq rfl h
  | extract_ready_timers nt => exact liveKeys_of_eq rfl h

theorem liveKeys_exec (ops : List Op) : LiveKeysLive (execOps ops) := by
  have hstep : ∀ (l : List Op) (s : State), LiveKeysLive s →
      LiveKeysLive (l.foldl applyOp s) := by
    intro l
    induction l with
    | nil => exact fun s hs => hs
    | cons op rest ih => exact fun s hs => ih _ (liveKeys_applyOp hs op)
  refine hstep ops State.new ?_
  intro kv hkv
  cases hkv

/-- C10: writing a non-live package reference reports no error to the
caller and is a logged no-op — the state is unchanged — and reading a
non-live reference yields `none`; consequently every key ever stored in
`State.live_packages` (reachable by any operation sequence from a fresh
state) satisfies `is_live_package`. -/
theorem c10_nonlive_noop (s : State) (p : PackageReference) (content : String)
    (ops : List Op) (h : p.is_live_package = false) :
    s.set_live_package_content p content = s ∧
    s.get_live_package_content p = none ∧
    LiveKeysLive (execOps ops) := by
  refine ⟨?_, ?_, liveKeys_exec ops⟩
  · unfold State.set_live_package_content
    simp [h]
  · unfold State.get_live_package_content
    simp [h]

/-- Witness for C10 at concrete inputs: `alice.x` is not live; the run
stores one live and attempts one non-live package. -/
theorem c10_witness :
    sampleState.set_live_package_content ⟨"alice", none, "x"⟩ "c" = sampleState ∧
    sampleState.get_live_package_content ⟨"alice", none, "x"⟩ = none ∧
    LiveKeysLive (execOps
      [Op.set_live_package_content ⟨"alice", some "live", "x"⟩ "code",
       Op.set_live_package_content ⟨"bob", none, "y"⟩ "code"]) :=
  c10_nonlive_noop sampleState ⟨"alice", none, "x"⟩ "c"
    [Op.set_live_package_content ⟨"alice", some "live", "x"⟩ "code",
     Op.set_live_package_content ⟨"bob", none, "y"⟩ "code"] (by decide)

theorem filter_not_filter {α : Type} (q : α → Bool) (l : List α) :
    (l.filter (fun x => !q x)).filter q = [] := by
  induction l with
  | nil => rfl
  | cons a t ih =>
    by_cases ha : q a
    · simp only [List.filter_cons, ha, Bool.not_true]
      exact ih
    · have ha2 : q a = false := by
        cases hq : q a
        · rfl
        · exact absurd hq ha
      simp [List.filter_cons, ha2, ih]

theorem extract_objects (s : State) (nt : GameTime) :
    (s.extract_ready_timers nt).1.objects =
      s.objects.map (fun o =>
        { o with timers := o.timers.filter (fun kt => !readyPred s.current_time nt kt) }) := rfl

theorem extract_snd (s : State) (nt : GameTime) :
    (s.extract_ready_timers nt).2 = extractFrom s.current_time nt 0 s.objects := rfl

theorem extract_current_time (s : State) (nt : GameTime) :
    (s.extract_ready_timers nt).1.current_time = s.current_time := rfl

theorem mem_extractFrom {ct nt : GameTime} :
    ∀ (l : List Object) (idx : Nat) (x : Id × Timer),
      x ∈ extractFrom ct nt idx l ↔
        ∃ j o kt, l.get? j = some o ∧ kt ∈ o.timers ∧
          readyPred ct nt kt = true ∧ x = (⟨idx + j⟩, kt.2) := by
  intro l
  induction l with
  | nil =>
    intro idx x
    simp [extractFrom]
  | cons o t ih =>
    intro idx x
    rw [extractFrom, List.mem_append]
    constructor
    · rintro (h1 | h1)
      · obtain ⟨kt, hkt, hx⟩ := List.mem_map.mp h1
        obtain ⟨hmem, hready⟩ := List.mem_filter.mp hkt
        refine ⟨0, o, kt, rfl, hmem, hready, ?_⟩
        rw [← hx]
        simp
      · obtain ⟨j, o2, kt, hj, hmem, hready, hx⟩ := (ih (idx + 1) x).mp h1
        refine ⟨j + 1, o2, kt, by simpa using hj, hmem, hready, ?_⟩
        rw [hx]
        simp only [Prod.mk.injEq, Id.mk.injEq, and_true]
        omega
    · rintro ⟨j, o2, kt, hj, hmem, hready, hx⟩
      subst hx
      cases j with
      | zero =>
        left
        have ho : o = o2 := by simpa using hj
        subst ho
        refine List.mem_map.mpr ⟨kt, List.mem_filter.mpr ⟨hmem, hready⟩, ?_⟩
        simp
      | succ j2 =>
        right
        refine (ih (idx + 1) _).mpr ⟨j2, o2, kt, by simpa using hj, hmem, hready, ?_⟩
        simp only [Prod.mk.injEq, Id.mk.injEq, and_true]
        omega

theorem extractFrom_eq_nil {ct nt : GameTime} :
    ∀ (l : List Object) (idx : Nat),
      (∀ o ∈ l, o.timers.filter (readyPred ct nt) = []) →
      extractFrom ct nt idx l = [] := by
  intro l
  induction l with
  | nil =>
    intro idx h
    rfl
  | cons o t ih =>
    intro idx h
    rw [extractFrom, h o (List.mem_cons_self o t), List.map_nil, List.nil_append]
    exact ih _ (fun o2 ho2 => h o2 (List.mem_cons_of_mem _ ho2))

/-- C3: `extract_ready_timers(new_time)` leaves `current_time` untouched,
keeps exactly the timers with `target_time` outside
`(current_time, new_time]` where they were, returns exactly the
`(owner, timer)` pairs with `current_time < target_time ≤ new_time`, and a
second call with the same `new_time` returns the empty result. -/
theorem c3_extract_ready_timers (s : State) (new_time : GameTime) :
    (s.extract_ready_timers new_time).1.current_time = s.current_time ∧
    (∀ j o kt, s.objects.get? j = some o → kt ∈ o.timers →
       readyPred s.current_time new_time kt = false →
       ∃ o2, (s.extract_ready_timers new_time).1.objects.get? j = some o2 ∧ kt ∈ o2.timers) ∧
    (∀ j o2 kt, (s.extract_ready_timers new_time).1.objects.get? j = some o2 →
       kt ∈ o2.timers →
       readyPred s.current_time new_time kt = false ∧
       ∃ o, s.objects.get? j = some o ∧ kt ∈ o.timers) ∧
    (∀ x, x ∈ (s.extract_ready_timers new_time).2 ↔
       ∃ j o kt, s.objects.get? j = some o ∧ kt ∈ o.timers ∧
         readyPred s.current_time new_time kt = true ∧ x = (⟨j⟩, kt.2)) ∧
    ((s.extract_ready_timers new_time).1.extract_ready_timers new_time).2 = [] := by
  refine ⟨rfl, ?_, ?_, ?_, ?_⟩
  · intro j o kt hj hmem hready
    refine ⟨{ o with timers := o.timers.filter (fun kt => !readyPred s.current_time new_time kt) }, ?_, ?_⟩
    · rw [extract_objects, List.get?_map, hj]
      rfl
    · exact List.mem_filter.mpr ⟨hmem, by simp [hready]⟩
  · intro j o2 kt hj hmem
    rw [extract_objects, List.get?_map] at hj
    cases hg : s.objects.get? j with
    | none =>
      rw [hg] at hj
      cases hj
    | some o =>
      rw [hg] at hj
      have ho2 : { o with timers := o.timers.filter (fun kt => !readyPred s.current_time new_time kt) } = o2 :=
        Option.some.inj hj
      rw [← ho2] at hmem
      obtain ⟨hmem2, hnr⟩ := List.mem_filter.mp hmem
      refine ⟨?_, o, rfl, hmem2⟩
      cases hr : readyPred s.current_time new_time kt
      · rfl
      · rw [hr] at hnr
        cases hnr
  · intro x
    rw [extract_snd]
    rw [mem_extractFrom s.objects 0 x]
    constructor
    · rintro ⟨j, o, kt, hj, hmem, hready, hx⟩
      exact ⟨j, o, kt, hj, hmem, hready, by simpa using hx⟩
    · rintro ⟨j, o, kt, hj, hmem, hready, hx⟩
      exact ⟨j, o, kt, hj, hmem, hready, by simpa using hx⟩
  · rw [extract_snd, extract_current_time, extract_objects]
    refine extractFrom_eq_nil _ 0 ?_
    intro o2 ho2
    obtain ⟨o, _, ho⟩ := List.mem_map.mp ho2
    rw [← ho]
    exact filter_not_filter _ _

/-- Witness for C3 at a concrete state: two timers at 5 and 20, extracted
at `new_time = 10`. -/
theorem c3_witness :
    (timerState.extract_ready_timers 10).1.current_time = timerState.current_time ∧
    (∀ j o kt, timerState.objects.get? j = some o → kt ∈ o.timers →
       readyPred timerState.current_time 10 kt = false →
       ∃ o2, (timerState.extract_ready_timers 10).1.objects.get? j = some o2 ∧ kt ∈ o2.timers) ∧
    (∀ j o2 kt, (timerState.extract_ready_timers 10).1.objects.get? j = some o2 →
       kt ∈ o2.timers →
       readyPred timerState.current_time 10 kt = false ∧
       ∃ o, timerState.objects.get? j = some o ∧ kt ∈ o.timers) ∧
    (∀ x, x ∈ (timerState.extract_ready_timers 10).2 ↔
       ∃ j o kt, timerState.objects.get? j = some o ∧ kt ∈ o.timers ∧
         readyPred timerState.current_time 10 kt = true ∧ x = (⟨j⟩, kt.2)) ∧
    ((timerState.extract_ready_timers 10).1.extract_ready_timers 10).2 = [] :=
  c3_extract_ready_timers timerState 10

theorem gocu_existing {s : State} {u : String} (ut : String) {id : Id}
    (h : lookupKV s.users u = some id) : s.get_or_create_user u ut = (s, id) := by
  unfold State.get_or_create_user
  rw [h]

theorem gocu_fresh_eq {s : State} {u : String} (ut : String)
    (h : lookupKV s.users u = none) :
    s.get_or_create_user u ut =
      ({ objects := listModify (fun o => { o with parent := some s.entrance }) s.objects.length (s.objects ++ [Object.new (ObjectKind.for_user u ut)]), entrance := s.entrance, users := insertKV s.users u ⟨s.objects.length⟩, live_packages := s.live_packages, current_time := s.current_time }, ⟨s.objects.length⟩) := by
  unfold State.get_or_create_user
  rw [h]
  rfl

theorem gocu_fresh_parent {s : State} {u : String} (ut : String)
    (h : lookupKV s.users u = none) :
    (s.get_or_create_user u ut).1.parent (s.get_or_create_user u ut).2 =
      .ok (some s.entrance) := by
  rw [gocu_fresh_eq ut h]
  have hg : (listModify (fun o => { o with parent := some s.entrance }) s.objects.length
      (s.objects ++ [Object.new (ObjectKind.for_user u ut)])).get? s.objects.length =
      some { Object.new (ObjectKind.for_user u ut) with parent := some s.entrance } := by
    rw [listModify_get?, if_pos rfl, List.get?_concat_length]
    rfl
  unfold State.parent State.object
  rw [hg]
  rfl

/-- C8: `get_or_create_user` is idempotent — a first call on an
unregistered username creates object `#objects.length` parented at the
entrance and registers it; any call on a registered username returns the
stored id and leaves the state unchanged; on a fresh state the entrance is
`#0` and the first user becomes `#1`. -/
theorem c8_get_or_create_user_idempotent (s : State) (username ut ut2 : String) :
    (lookupKV s.users username = none →
       (s.get_or_create_user username ut).2 = ⟨s.objects.length⟩ ∧
       (s.get_or_create_user username ut).1.parent (s.get_or_create_user username ut).2
         = .ok (some s.entrance) ∧
       lookupKV (s.get_or_create_user username ut).1.users username
         = some (s.get_or_create_user username ut).2) ∧
    (∀ id, lookupKV s.users username = some id → s.get_or_create_user username ut = (s, id)) ∧
    ((s.get_or_create_user username ut).1.get_or_create_user username ut2
       = ((s.get_or_create_user username ut).1, (s.get_or_create_user username ut).2)) ∧
    State.new.entrance = ⟨0⟩ ∧
    (State.new.get_or_create_user username ut).2 = ⟨1⟩ ∧
    (State.new.get_or_create_user username ut).1.parent ⟨1⟩ = .ok (some ⟨0⟩) := by
  have hnew : lookupKV State.new.users username = none := rfl
  refine ⟨?_, ?_, ?_, rfl, ?_, ?_⟩
  · intro h
    refine ⟨by rw [gocu_fresh_eq ut h], gocu_fresh_parent ut h, ?_⟩
    rw [gocu_fresh_eq ut h]
    exact lookupKV_insertKV_self _ _ _
  · intro id h
    exact gocu_existing ut h
  · cases hl : lookupKV s.users username with
    | some id =>
      rw [gocu_existing ut hl]
      exact gocu_existing ut2 hl
    | none =>
      rw [gocu_fresh_eq ut hl]
      exact gocu_existing ut2 (lookupKV_insertKV_self _ _ _)
  · rw [gocu_fresh_eq ut hnew]
    rfl
  · have := @gocu_fresh_parent State.new username ut hnew
    rw [gocu_fresh_eq ut hnew] at this ⊢
    exact this

/-- Witness for C8 at concrete inputs: registering "alice" on a fresh
state. -/
theorem c8_witness :
    (lookupKV State.new.users "alice" = none →
       (State.new.get_or_create_user "alice" "user").2 = ⟨State.new.objects.length⟩ ∧
       (State.new.get_or_create_user "alice" "user").1.parent
           (State.new.get_or_create_user "alice" "user").2 = .ok (some State.new.entrance) ∧
       lookupKV (State.new.get_or_create_user "alice" "user").1.users "alice"
         = some (State.new.get_or_create_user "alice" "user").2) ∧
    (∀ id, lookupKV State.new.users "alice" = some id →
       State.new.get_or_create_user "alice" "user" = (State.new, id)) ∧
    ((State.new.get_or_create_user "alice" "user").1.get_or_create_user "alice" "bot"
       = ((State.new.get_or_create_user "alice" "user").1,
          (State.new.get_or_create_user "alice" "user").2)) ∧
    State.new.entrance = ⟨0⟩ ∧
    (State.new.get_or_create_user "alice" "user").2 = ⟨1⟩ ∧
    (State.new.get_or_create_user "alice" "user").1.parent ⟨1⟩ = .ok (some ⟨0⟩) :=
  c8_get_or_create_user_idempotent State.new "alice" "user" "bot"

theorem set_state_ok {s : State} {id : Id} {o : Object} (k : String)
    (v : SerializableValue) (hg : s.objects.get? id.idx = some o) :
    s.set_state id k v =
      .ok ({ s with objects := listModify (fun o => { o with state := insertKV o.state k v }) id.idx s.objects }, lookupKV o.state k) := by
  unfold State.set_state
  rw [hg]

theorem get_state_after_set {s : State} {id : Id} {o : Object} (k : String)
    (v : SerializableValue) (hg : s.objects.get? id.idx = some o) :
    ({ s with objects := listModify (fun o => { o with state := insertKV o.state k v }) id.idx s.objects } : State).get_state id k = .ok (some v) := by
  unfold State.get_state State.object
  have hval : (listModify (fun o => { o with state := insertKV o.state k v }) id.idx s.objects).get? id.idx = some { o with state := insertKV o.state k v } := by
    rw [listModify_get?, if_pos rfl, hg]
    rfl
  rw [hval]
  show Except.ok (lookupKV (insertKV o.state k v) k) = Except.ok (some v)
  rw [lookupKV_insertKV_self]

/-- C7: for an existing object acting on itself outside a query,
`set_state` then `get_state` returns the stored value; with any id other
than the caller, both calls fail with the ownership error and the world is
returned unchanged. -/
theorem c7_state_roundtrip (ctx : ExecutionContext) (w : MWorld) (k : String)
    (v : SerializableValue) (other : Id) (hnq : ctx.in_query = false)
    (hvalid : ctx.id.idx < w.state.objects.length) (hother : other ≠ ctx.id) :
    (∃ w2 old, apiSetState ctx w ctx.id k v = (w2, .ok old) ∧
       apiGetState ctx w2 ctx.id k = (w2, .ok v)) ∧
    apiSetState ctx w other k v = (w, .error (.external "Can only set your own state.")) ∧
    apiGetState ctx w other k = (w, .error (.external "Can only get your own state.")) := by
  obtain ⟨o, hg⟩ : ∃ o, w.state.objects.get? ctx.id.idx = some o := by
    cases hgo : w.state.objects.get? ctx.id.idx with
    | none => exact absurd (List.get?_eq_none.mp hgo) (by omega)
    | some o => exact ⟨o, rfl⟩
  refine ⟨?_, ?_, ?_⟩
  · refine ⟨{ w with state := { w.state with objects := listModify (fun o => { o with state := insertKV o.state k v }) ctx.id.idx w.state.objects } }, (lookupKV o.state k).getD .nil, ?_, ?_⟩
    · unfold apiSetState
      rw [if_neg (fun h => h rfl), hnq]
      simp only [Bool.false_eq_true, if_false]
      rw [set_state_ok k v hg]
    · unfold apiGetState
      rw [if_neg (fun h => h rfl)]
      rw [get_state_after_set k v hg]
      rfl
  · unfold apiSetState
    rw [if_pos hother]
  · unfold apiGetState
    rw [if_pos hother]

/-- Witness for C7: object #1 of the sample world stores and reads back
the integer 3 under key "hp"; #0 is rejected as a foreign id. -/
theorem c7_witness :
    (∃ w2 old, apiSetState mainCtx sampleWorld mainCtx.id "hp" (.integer 3) = (w2, .ok old) ∧
       apiGetState mainCtx w2 mainCtx.id "hp" = (w2, .ok (.integer 3))) ∧
    apiSetState mainCtx sampleWorld ⟨0⟩ "hp" (.integer 3)
      = (sampleWorld, .error (.external "Can only set your own state.")) ∧
    apiGetState mainCtx sampleWorld ⟨0⟩ "hp"
      = (sampleWorld, .error (.external "Can only get your own state.")) :=
  c7_state_roundtrip mainCtx sampleWorld "hp" (.integer 3) ⟨0⟩ rfl (by decide) (by decide)

theorem get_set_live {s : State} {p : PackageReference} (hl : p.is_live_package = true)
    (content : String) :
    (s.set_live_package_content p content).get_live_package_content p = some content := by
  unfold State.set_live_package_content State.get_live_package_content
  simp only [hl, Bool.not_true, Bool.false_eq_true, if_false]
  exact lookupKV_insertKV_self _ _ _

/-- C5: `save_package_content(name, content)` succeeds exactly when `name`
parses to a live `PackageReference` whose user is the calling object's
username; success stores the content (readable back) and sends
`ReloadCode`, whose handling empties the executor cache; otherwise it
fails and the world is returned unchanged. -/
theorem c5_save_package_content (ctx : ExecutionContext) (w : MWorld)
    (name content : String) (p : PackageReference) (a : WorldActor)
    (hnq : ctx.in_query = false) :
    (PackageReference.new name = some p →
       w.state.username ctx.id = some p.user → p.is_live_package = true →
       apiSendSavePackageContent ctx w name content
         = ({ w with state := w.state.set_live_package_content p content, control := w.control ++ [ControlMessage.ReloadCode] }, .ok ()) ∧
       (w.state.set_live_package_content p content).get_live_package_content p = some content ∧
       (a.handleControlMessage .ReloadCode).executors = []) ∧
    (PackageReference.new name = none →
       apiSendSavePackageContent ctx w name content
         = (w, .error (.external "invalid object kind"))) ∧
    (PackageReference.new name = some p →
       ¬(w.state.username ctx.id = some p.user ∧ p.is_live_package = true) →
       apiSendSavePackageContent ctx w name content
         = (w, .error (.external "You can only write to live packages named $username/live.something"))) := by
  refine ⟨?_, ?_, ?_⟩
  · intro hp hu hl
    refine ⟨?_, get_set_live hl content, rfl⟩
    simp only [apiSendSavePackageContent, hp]
    rw [if_pos ⟨hu, hl⟩, hnq]
    simp only [Bool.false_eq_true, if_false]
  · intro hp
    simp only [apiSendSavePackageContent, hp]
  · intro hp hcond
    simp only [apiSendSavePackageContent, hp]
    rw [if_neg hcond]

/-- Witness for C5: "alice" (object #1) saves `alice/live.stuff`; a parse
failure and an ownership failure at the same world. -/
theorem c5_witness :
    (PackageReference.new "alice/live.stuff" = some ⟨"alice", some "live", "stuff"⟩ →
       sampleWorld.state.username mainCtx.id = some ("alice" : String) →
       PackageReference.is_live_package ⟨"alice", some "live", "stuff"⟩ = true →
       apiSendSavePackageContent mainCtx sampleWorld "alice/live.stuff" "code"
         = ({ sampleWorld with state := sampleWorld.state.set_live_package_content ⟨"alice", some "live", "stuff"⟩ "code", control := sampleWorld.control ++ [ControlMessage.ReloadCode] }, .ok ()) ∧
       (sampleWorld.state.set_live_package_content ⟨"alice", some "live", "stuff"⟩ "code").get_live_package_content ⟨"alice", some "live", "stuff"⟩ = some "code" ∧
       (WorldActor.handleControlMessage ⟨[(⟨"alice", some "live", "stuff"⟩, ⟨true⟩)]⟩ .ReloadCode).executors = []) ∧
    (PackageReference.new "alice/live.stuff" = none →
       apiSendSavePackageContent mainCtx sampleWorld "alice/live.stuff" "code"
         = (sampleWorld, .error (.external "invalid object kind"))) ∧
    (PackageReference.new "alice/live.stuff" = some ⟨"alice", some "live", "stuff"⟩ →
       ¬(sampleWorld.state.username mainCtx.id = some ("alice" : String) ∧
          PackageReference.is_live_package ⟨"alice", some "live", "stuff"⟩ = true) →
       apiSendSavePackageContent mainCtx sampleWorld "alice/live.stuff" "code"
         = (sampleWorld, .error (.external "You can only write to live packages named $username/live.something"))) :=
  c5_save_package_content mainCtx sampleWorld "alice/live.stuff" "code"
    ⟨"alice", some "live", "stuff"⟩ ⟨[(⟨"alice", some "live", "stuff"⟩, ⟨true⟩)]⟩ rfl

/-- C6: resolving a system package only ever reads the canonicalized
candidate path, and only when it stays under the canonicalized root: a
successful load exhibits a canonical path extending the root that was
read; a canonical path escaping the root is rejected with an error; a
non-system reference fails outright. -/
theorem c6_system_package_sandbox {β : Type} (host : LuaHost β) (r : PackageReference)
    (buf : β) (nm : String) (path : List String) :
    (host.filesystem_package_to_buf r = .ok buf →
       r.package_root = PackageReference.system_package_root ∧
       ∃ pth, host.canon (host.root ++ [r.package ++ ".lua"]) = some pth ∧
         pathStartsWith pth host.root = true ∧ host.readFile pth = some buf) ∧
    (host.canon (host.root ++ [nm ++ ".lua"]) = some path →
       pathStartsWith path host.root = false →
       host.system_package_root_to_buf nm = .error "Cannot require outside of root") ∧
    (r.package_root ≠ PackageReference.system_package_root →
       host.filesystem_package_to_buf r = .error "not a system package") := by
  refine ⟨?_, ?_, ?_⟩
  · intro h
    unfold LuaHost.filesystem_package_to_buf at h
    by_cases hroot : r.package_root ≠ PackageReference.system_package_root
    · rw [if_pos hroot] at h
      cases h
    · rw [if_neg hroot] at h
      push_neg at hroot
      refine ⟨hroot, ?_⟩
      unfold LuaHost.system_package_root_to_buf at h
      cases hc : host.canon (host.root ++ [r.package ++ ".lua"]) with
      | none =>
        rw [hc] at h
        cases h
      | some pth =>
        rw [hc] at h
        have h2 : (if (!pathStartsWith pth host.root) = true
            then (Except.error "Cannot require outside of root" : Except String β)
            else match host.readFile pth with
              | none => Except.error "io error: read failed"
              | some buf => Except.ok buf) = Except.ok buf := h
        refine ⟨pth, rfl, ?_⟩
        cases hsw : pathStartsWith pth host.root with
        | false =>
          rw [hsw] at h2
          cases h2
        | true =>
          rw [hsw] at h2
          simp only [Bool.not_true, Bool.false_eq_true, if_false] at h2
          refine ⟨rfl, ?_⟩
          cases hrd : host.readFile pth with
          | none =>
            rw [hrd] at h2
            cases h2
          | some b =>
            rw [hrd] at h2
            exact congrArg some (Except.ok.inj h2)
  · intro hc hsw
    unfold LuaHost.system_package_root_to_buf
    rw [hc]
    show (if (!pathStartsWith path host.root) = true
        then (Except.error "Cannot require outside of root" : Except String β)
        else match host.readFile path with
          | none => Except.error "io error: read failed"
          | some buf => Except.ok buf) = _
    rw [hsw]
    rfl
  · intro hroot
    unfold LuaHost.filesystem_package_to_buf
    rw [if_pos hroot]

/-- Witness for C6: an identity-canonicalizing filesystem with root
`["root"]` holding content `42` everywhere, the reference `system.stuff`,
and a probe name whose canonical path stays inside the root. -/
theorem c6_witness :
    ((LuaHost.mk ["root"] (fun p => some p) (fun _ => some 42) : LuaHost Nat).filesystem_package_to_buf ⟨"system", none, "stuff"⟩ = .ok 42 →
       PackageReference.package_root ⟨"system", none, "stuff"⟩ = PackageReference.system_package_root ∧
       ∃ pth, (LuaHost.mk ["root"] (fun p => some p) (fun _ => some 42) : LuaHost Nat).canon (["root"] ++ ["stuff" ++ ".lua"]) = some pth ∧
         pathStartsWith pth ["root"] = true ∧
         (LuaHost.mk ["root"] (fun p => some p) (fun _ => some 42) : LuaHost Nat).readFile pth = some 42) ∧
    ((LuaHost.mk ["root"] (fun p => some p) (fun _ => some 42) : LuaHost Nat).canon (["root"] ++ ["probe" ++ ".lua"]) = some ["elsewhere"] →
       pathStartsWith ["elsewhere"] ["root"] = false →
       (LuaHost.mk ["root"] (fun p => some p) (fun _ => some 42) : LuaHost Nat).system_package_root_to_buf "probe" = .error "Cannot require outside of root") ∧
    (PackageReference.package_root ⟨"system", none, "stuff"⟩ ≠ PackageReference.system_package_root →
       (LuaHost.mk ["root"] (fun p => some p) (fun _ => some 42) : LuaHost Nat).filesystem_package_to_buf ⟨"system", none, "stuff"⟩ = .error "not a system package") :=
  c6_system_package_sandbox (LuaHost.mk ["root"] (fun p => some p) (fun _ => some 42))
    ⟨"system", none, "stuff"⟩ 42 "probe" ["elsewhere"]

/-- C9: invoking `query` while already inside a query returns the world
untouched with an error, independently of the nested-execution oracle (so
no target handler ran); when both kind lookups succeed the error is the
explicit nested-query rejection. -/
theorem c9_no_nested_query
    (run run2 : Message → MWorld → MWorld × Except LuaError SerializableValue)
    (ctx : ExecutionContext) (w : MWorld) (object_id : Id) (nm : String)
    (payload : SerializableValue) (hq : ctx.in_query = true) :
    (apiQuery run ctx w object_id nm payload).1 = w ∧
    (∃ e, (apiQuery run ctx w object_id nm payload).2 = .error e) ∧
    apiQuery run ctx w object_id nm payload = apiQuery run2 ctx w object_id nm payload ∧
    (∀ k1 k2, w.state.kind ctx.id = .ok k1 → w.state.kind object_id = .ok k2 →
       apiQuery run ctx w object_id nm payload
         = (w, .error (.external "You currently cannot run a query from a query, sorry."))) := by
  have key : ∀ run3 : Message → MWorld → MWorld × Except LuaError SerializableValue,
      apiQuery run3 ctx w object_id nm payload =
        (match w.state.kind ctx.id with
         | .error e => (w, .error (.stateError e))
         | .ok _ =>
           match w.state.kind object_id with
           | .error e => (w, .error (.stateError e))
           | .ok _ =>
             (w, .error (.external "You currently cannot run a query from a query, sorry."))) := by
    intro run3
    unfold apiQuery
    cases hk1 : w.state.kind ctx.id with
    | error e => rfl
    | ok k1 =>
      cases hk2 : w.state.kind object_id with
      | error e => rfl
      | ok k2 =>
        rw [hq]
        simp
  refine ⟨?_, ?_, ?_, ?_⟩
  · rw [key run]
    cases w.state.kind ctx.id with
    | error e => rfl
    | ok k1 =>
      cases w.state.kind object_id with
      | error e => rfl
      | ok k2 => rfl
  · rw [key run]
    cases w.state.kind ctx.id with
    | error e => exact ⟨_, rfl⟩
    | ok k1 =>
      cases w.state.kind object_id with
      | error e => exact ⟨_, rfl⟩
      | ok k2 => exact ⟨_, rfl⟩
  · rw [key run, key run2]
  · intro k1 k2 hk1 hk2
    rw [key run, hk1, hk2]

/-- Witness for C9: a nested query from object #1 of the sample world,
with two distinct oracles. -/
theorem c9_witness :
    (apiQuery (fun _ w2 => (w2, .ok .nil)) queryCtx sampleWorld ⟨0⟩ "info" .nil).1 = sampleWorld ∧
    (∃ e, (apiQuery (fun _ w2 => (w2, .ok .nil)) queryCtx sampleWorld ⟨0⟩ "info" .nil).2 = .error e) ∧
    apiQuery (fun _ w2 => (w2, .ok .nil)) queryCtx sampleWorld ⟨0⟩ "info" .nil
      = apiQuery (fun _ w2 => (w2, .ok (.integer 7))) queryCtx sampleWorld ⟨0⟩ "info" .nil ∧
    (∀ k1 k2, sampleWorld.state.kind queryCtx.id = .ok k1 →
       sampleWorld.state.kind ⟨0⟩ = .ok k2 →
       apiQuery (fun _ w2 => (w2, .ok .nil)) queryCtx sampleWorld ⟨0⟩ "info" .nil
         = (sampleWorld, .error (.external "You currently cannot run a query from a query, sorry."))) :=
  c9_no_nested_query (fun _ w2 => (w2, .ok .nil)) (fun _ w2 => (w2, .ok (.integer 7)))
    queryCtx sampleWorld ⟨0⟩ "info" .nil rfl

/-- C2 counterexample: inside a query, `set_attr` on a foreign id fails
with the ownership error, not the mutation-rejected error the claim
demands for every mutating call. -/
theorem c2_counterexample :
    (apiSetAttr queryCtx sampleWorld ⟨0⟩ "k" .nil).2
      = .error (.external "Can only set your own attrs.") ∧
    LuaError.external "Can only set your own attrs." ≠ mutationRejected := by
  constructor
  · rfl
  · decide

/-- C2 as amended: inside a query every mutating API call fails and
returns the world unchanged; the error is the mutation-rejected one,
except where a per-call validation (ownership, same-room permission,
package ownership) fires first. -/
theorem c2_query_mutation_rejected (ctx : ExecutionContext) (w : MWorld)
    (target other : Id) (nm k fresh_name name2 content : String)
    (payload v : SerializableValue) (kind : ObjectKind) (np : Option Id)
    (delayName : Option String) (delay : Float) (p : PackageReference)
    (hq : ctx.in_query = true) :
    apiSend ctx w target nm payload = (w, .error mutationRejected) ∧
    apiCreateObject ctx w np kind payload = (w, .error mutationRejected) ∧
    apiSetDelay ctx w delayName delay nm payload fresh_name = (w, .error mutationRejected) ∧
    apiClearDelay ctx w nm = (w, .error mutationRejected) ∧
    apiSetAttr ctx w ctx.id k v = (w, .error mutationRejected) ∧
    (other ≠ ctx.id →
       apiSetAttr ctx w other k v = (w, .error (.external "Can only set your own attrs."))) ∧
    apiSetState ctx w ctx.id k v = (w, .error mutationRejected) ∧
    (other ≠ ctx.id →
       apiSetState ctx w other k v = (w, .error (.external "Can only set your own state."))) ∧
    apiMoveObject ctx w ctx.id np = (w, .error mutationRejected) ∧
    ((apiMoveObject ctx w other np).1 = w ∧ ∃ e, (apiMoveObject ctx w other np).2 = .error e) ∧
    ((apiSendSavePackageContent ctx w name2 content).1 = w ∧
       ∃ e, (apiSendSavePackageContent ctx w name2 content).2 = .error e) ∧
    (PackageReference.new name2 = some p → w.state.username ctx.id = some p.user →
       p.is_live_package = true →
       apiSendSavePackageContent ctx w name2 content = (w, .error mutationRejected)) := by
  refine ⟨?_, ?_, ?_, ?_, ?_, ?_, ?_, ?_, ?_, ?_, ?_, ?_⟩
  · unfold apiSend
    rw [hq]
    simp
  · unfold apiCreateObject
    rw [hq]
    simp
  · unfold apiSetDelay
    rw [hq]
    simp
  · unfold apiClearDelay
    rw [hq]
    simp
  · unfold apiSetAttr
    rw [if_neg (fun h => h rfl), hq]
    simp
  · intro hother
    unfold apiSetAttr
    rw [if_pos hother]
  · unfold apiSetState
    rw [if_neg (fun h => h rfl), hq]
    simp
  · intro hother
    unfold apiSetState
    rw [if_pos hother]
  · unfold apiMoveObject moveCheck
    rw [if_neg (fun h => h rfl)]
    rw [hq]
    simp
  · unfold apiMoveObject
    cases hchk : moveCheck ctx w.state other with
    | error e => exact ⟨rfl, e, rfl⟩
    | ok u =>
      rw [hq]
      simp
  · cases hp : PackageReference.new name2 with
    | none =>
      simp only [apiSendSavePackageContent, hp]
      exact ⟨trivial, _, rfl⟩
    | some dp =>
      simp only [apiSendSavePackageContent, hp]
      by_cases hcond : w.state.username ctx.id = some dp.user ∧ dp.is_live_package = true
      · rw [if_pos hcond, hq]
        simp
      · rw [if_neg hcond]
        exact ⟨rfl, _, rfl⟩
  · intro hp hu hl
    simp only [apiSendSavePackageContent, hp]
    rw [if_pos ⟨hu, hl⟩, hq]
    simp

/-- Witness for the amended C2 at concrete inputs: object #1 of the
sample world inside a query. -/
theorem c2_witness :
    apiSend queryCtx sampleWorld ⟨0⟩ "m" .nil = (sampleWorld, .error mutationRejected) ∧
    apiCreateObject queryCtx sampleWorld none ObjectKind.for_room .nil
      = (sampleWorld, .error mutationRejected) ∧
    apiSetDelay queryCtx sampleWorld none 2.0 "m" .nil "t" = (sampleWorld, .error mutationRejected) ∧
    apiClearDelay queryCtx sampleWorld "m" = (sampleWorld, .error mutationRejected) ∧
    apiSetAttr queryCtx sampleWorld queryCtx.id "k" .nil = (sampleWorld, .error mutationRejected) ∧
    (⟨0⟩ ≠ queryCtx.id →
       apiSetAttr queryCtx sampleWorld ⟨0⟩ "k" .nil
         = (sampleWorld, .error (.external "Can only set your own attrs."))) ∧
    apiSetState queryCtx sampleWorld queryCtx.id "k" .nil = (sampleWorld, .error mutationRejected) ∧
    (⟨0⟩ ≠ queryCtx.id →
       apiSetState queryCtx sampleWorld ⟨0⟩ "k" .nil
         = (sampleWorld, .error (.external "Can only set your own state."))) ∧
    apiMoveObject queryCtx sampleWorld queryCtx.id none = (sampleWorld, .error mutationRejected) ∧
    ((apiMoveObject queryCtx sampleWorld ⟨0⟩ none).1 = sampleWorld ∧
       ∃ e, (apiMoveObject queryCtx sampleWorld ⟨0⟩ none).2 = .error e) ∧
    ((apiSendSavePackageContent queryCtx sampleWorld "alice/live.stuff" "code").1 = sampleWorld ∧
       ∃ e, (apiSendSavePackageContent queryCtx sampleWorld "alice/live.stuff" "code").2 = .error e) ∧
    (PackageReference.new "alice/live.stuff" = some ⟨"alice", some "live", "stuff"⟩ →
       sampleWorld.state.username queryCtx.id = some ("alice" : String) →
       PackageReference.is_live_package ⟨"alice", some "live", "stuff"⟩ = true →
       apiSendSavePackageContent queryCtx sampleWorld "alice/live.stuff" "code"
         = (sampleWorld, .error mutationRejected)) :=
  c2_query_mutation_rejected queryCtx sampleWorld ⟨0⟩ ⟨0⟩ "m" "k" "t" "alice/live.stuff" "code"
    .nil .nil ObjectKind.for_room none none 2.0 ⟨"alice", some "live", "stuff"⟩ rfl

/-- C4 counterexample: `move_object` with an invalid id as both child and
new parent fails with `CyclicHierarchy`, not `InvalidObjectId` (the
`child == new_parent` check precedes the existence check). -/
theorem c4_counterexample :
    State.new.move_object ⟨1⟩ (some ⟨1⟩) = .error (.CyclicHierarchy ⟨1⟩ ⟨1⟩) ∧
    State.new.move_object ⟨1⟩ (some ⟨1⟩) ≠ .error (.InvalidObjectId ⟨1⟩) := by
  have h : State.new.move_object ⟨1⟩ (some ⟨1⟩) = .error (.CyclicHierarchy ⟨1⟩ ⟨1⟩) := by
    apply move_cyc_of_cc_true
    rw [State.causes_cycle, if_pos rfl]
  refine ⟨h, ?_⟩
  rw [h]
  simp

/-- C4 as amended: on a well-formed state, every state operation handed an
out-of-range id fails with `InvalidObjectId` for that id — except
`move_object` when `new_parent` equals the invalid child, which fails with
`CyclicHierarchy`; with an invalid `new_parent` distinct from the child
the reported invalid id is `new_parent`. -/
theorem c4_invalid_id_errors (s : State) (id child p : Id) (k nmT : String)
    (v : SerializableValue) (t : Timer) (hwf : Wf s)
    (hinv : s.objects.length ≤ id.idx) :
    s.parent id = .error (.InvalidObjectId id) ∧
    s.kind id = .error (.InvalidObjectId id) ∧
    s.get_attr id k = .error (.InvalidObjectId id) ∧
    s.set_attr id k v = .error (.InvalidObjectId id) ∧
    s.get_state id k = .error (.InvalidObjectId id) ∧
    s.set_state id k v = .error (.InvalidObjectId id) ∧
    s.set_timer id nmT t = .error (.InvalidObjectId id) ∧
    s.clear_timer id nmT = .error (.InvalidObjectId id) ∧
    s.move_object id none = .error (.InvalidObjectId id) ∧
    s.move_object id (some id) = .error (.CyclicHierarchy id id) ∧
    (p.idx < s.objects.length → s.move_object id (some p) = .error (.InvalidObjectId id)) ∧
    (child ≠ id → s.move_object child (some id) = .error (.InvalidObjectId id)) ∧
    (s.objects.length ≤ p.idx → p ≠ id → s.move_object id (some p) = .error (.InvalidObjectId p)) := by
  obtain ⟨hv, hb⟩ := hwf
  have hg : s.objects.get? id.idx = none := List.get?_eq_none.mpr hinv
  refine ⟨?_, ?_, ?_, ?_, ?_, ?_, ?_, ?_, ?_, ?_, ?_, ?_, ?_⟩
  · unfold State.parent
    rw [object_err hg]
    rfl
  · unfold State.kind
    rw [object_err hg]
    rfl
  · unfold State.get_attr
    rw [object_err hg]
    rfl
  · unfold State.set_attr
    rw [hg]
  · unfold State.get_state
    rw [object_err hg]
    rfl
  · unfold State.set_state
    rw [hg]
  · unfold State.set_timer State.modifyObject
    rw [hg]
  · unfold State.clear_timer State.modifyObject
    rw [hg]
  · show s.modifyObject id (fun o => { o with parent := none }) = .error (.InvalidObjectId id)
    unfold State.modifyObject
    rw [hg]
  · apply move_cyc_of_cc_true
    cases hfuel : s.objects.length + 1 with
    | zero => omega
    | succ f =>
      rw [State.causes_cycle, if_pos rfl]
  · intro hp
    have hcc : s.causes_cycle id p (s.objects.length + 1) = .ok false := by
      refine causes_cycle_false_of_dead hv (by omega) hp (hb p.idx hp) ?_
      intro n hn
      have := ancestor_lt hv hp hn
      omega
    rw [move_of_cc_false hcc]
    unfold State.modifyObject
    rw [hg]
  · intro hchild
    apply move_err_of_cc
    rw [State.causes_cycle, if_neg hchild, object_err hg]
  · intro hpinv hpid
    apply move_err_of_cc
    have hpg : s.objects.get? p.idx = none := List.get?_eq_none.mpr hpinv
    rw [State.causes_cycle, if_neg (fun he => hpid (he.symm)), object_err hpg]

/-- Witness for the amended C4: id #5 against the fresh one-object
state. -/
theorem c4_witness :
    State.new.parent ⟨5⟩ = .error (.InvalidObjectId ⟨5⟩) ∧
    State.new.kind ⟨5⟩ = .error (.InvalidObjectId ⟨5⟩) ∧
    State.new.get_attr ⟨5⟩ "a" = .error (.InvalidObjectId ⟨5⟩) ∧
    State.new.set_attr ⟨5⟩ "a" .nil = .error (.InvalidObjectId ⟨5⟩) ∧
    State.new.get_state ⟨5⟩ "a" = .error (.InvalidObjectId ⟨5⟩) ∧
    State.new.set_state ⟨5⟩ "a" .nil = .error (.InvalidObjectId ⟨5⟩) ∧
    State.new.set_timer ⟨5⟩ "t" ⟨7, none, "m", .nil⟩ = .error (.InvalidObjectId ⟨5⟩) ∧
    State.new.clear_timer ⟨5⟩ "t" = .error (.InvalidObjectId ⟨5⟩) ∧
    State.new.move_object ⟨5⟩ none = .error (.InvalidObjectId ⟨5⟩) ∧
    State.new.move_object ⟨5⟩ (some ⟨5⟩) = .error (.CyclicHierarchy ⟨5⟩ ⟨5⟩) ∧
    ((⟨0⟩ : Id).idx < State.new.objects.length →
       State.new.move_object ⟨5⟩ (some ⟨0⟩) = .error (.InvalidObjectId ⟨5⟩)) ∧
    ((⟨0⟩ : Id) ≠ ⟨5⟩ →
       State.new.move_object ⟨0⟩ (some ⟨5⟩) = .error (.InvalidObjectId ⟨5⟩)) ∧
    (State.new.objects.length ≤ (⟨0⟩ : Id).idx → (⟨0⟩ : Id) ≠ ⟨5⟩ →
       State.new.move_object ⟨5⟩ (some ⟨0⟩) = .error (.InvalidObjectId ⟨0⟩)) :=
  c4_invalid_id_errors State.new ⟨5⟩ ⟨0⟩ ⟨0⟩ "a" "t" .nil ⟨7, none, "m", .nil⟩
    wf_new (by decide)

end Orisa
